import Mathlib

/-
Verification of the schema-driven flattening and column-reconciliation engine
of the DGER-coop-inter suite (a Python system that mirrors "Démarches
Simplifiées" dossiers into Grist tables).

The Python sources are shallowly embedded:
* Python/JSON dynamic values become the inductive type `J` (no floating-point
  constructor: every numeric value used by the claims is integral, and the
  source never does arithmetic on them beyond identity-style conversions);
* Python dicts become insertion-ordered association lists (`Rec`) with
  Python's `d[k] = v` update semantics (`recSet`);
* code that can raise (KeyError / IndexError / AttributeError / TypeError)
  is embedded in `Option`, `none` marking the raising executions;
* the two Unicode-dependent library primitives used by the column-name
  normalizers (`unicodedata.normalize('NFKD', .)` followed by dropping
  combining marks, and `str.lower`) and the `hashlib.md5(...).hexdigest()[:6]`
  suffix are abstracted into a `UniModel` parameter, so that theorems which
  quantify over every input string genuinely cover the Python behaviour;
  `asciiUni` instantiates them for the ASCII inputs used by concrete
  counterexamples and witnesses (on those inputs NFKD and combining-mark
  removal are the identity and `str.lower` lowercases character-wise).
-/

namespace DGER

/-- A Python/JSON dynamic value as handled by the source: `None`, `bool`,
`int`, `str`, `list`, `dict`.  Floats do not occur in any claim and are not
modelled. -/
inductive J where
  | null : J
  | b : Bool → J
  | i : Int → J
  | s : String → J
  | arr : List J → J
  | obj : List (String × J) → J
deriving Repr, Inhabited

/-- `d.get(k)` on a Python dict: first binding of the key, if any.  On a
non-dict value there is no binding (the call sites that would raise
`AttributeError` instead are modelled separately). -/
def jget : J → String → Option J
  | J.obj kvs, k => (kvs.find? (fun kv => kv.1 = k)).map (fun kv => kv.2)
  | _, _ => none

/-- `d.get(k, default)`. -/
def jgetD (j : J) (k : String) (d : J) : J := (jget j k).getD d

/-- Python truthiness of a value (`if value:`). -/
def truthy : J → Bool
  | J.null => false
  | J.b v => v
  | J.i v => v != 0
  | J.s v => v ≠ ""
  | J.arr vs => !vs.isEmpty
  | J.obj kvs => !kvs.isEmpty

/-- Python `str(value)` / f-string interpolation for the scalar values the
source actually interpolates (`None`, booleans, ints, strings).  Lists and
dicts are interpolated nowhere relevant to the claims; they get a fixed
placeholder so the function stays structural. -/
def pyStr : J → String
  | J.null => "None"
  | J.b true => "True"
  | J.b false => "False"
  | J.i v => toString v
  | J.s v => v
  | J.arr _ => "<list>"
  | J.obj _ => "<dict>"

/-- `json.dumps` of a value (compact Python default rendering, `ensure_ascii`
differences immaterial for the values at hand).  Only stored opaquely inside
records (the claims never inspect the dumped text), so the well-founded
recursion is never unfolded by a proof. -/
def dumpJ : J → String
  | J.null => "null"
  | J.b true => "true"
  | J.b false => "false"
  | J.i v => toString v
  | J.s v => "\"" ++ v ++ "\""
  | J.arr vs => "[" ++ String.intercalate ", " (vs.attach.map (fun x => dumpJ x.1)) ++ "]"
  | J.obj kvs => "\x7b" ++ String.intercalate ", "
      (kvs.attach.map (fun x => "\"" ++ x.1.1 ++ "\": " ++ dumpJ x.1.2)) ++ "\x7d"
decreasing_by
  · simp_wf
    have h := List.sizeOf_lt_of_mem x.2
    omega
  · simp_wf
    have h := List.sizeOf_lt_of_mem x.2
    have h2 : sizeOf (x.1).2 < sizeOf x.1 := by
      obtain ⟨⟨a, v⟩, hx⟩ := x
      simp
    omega

/-- A Python dict as the source builds records: insertion-ordered key/value
association list with unique keys maintained by `recSet`. -/
def Rec := List (String × J)

instance : Inhabited Rec := ⟨([] : List (String × J))⟩

instance : Append Rec := ⟨fun a b => List.append a b⟩

/-- Dict read `d[k]` / `d.get(k)`: first binding wins. -/
def recGet (r : Rec) (k : String) : Option J :=
  ((r : List (String × J)).find? (fun kv => kv.1 = k)).map (fun kv => kv.2)

/-- Read a string-valued entry. -/
def recGetStr (r : Rec) (k : String) : Option String :=
  match recGet r k with
  | some (J.s v) => some v
  | _ => none

/-- Python `d[k] = v`: overwrite the existing binding in place, else append. -/
def recSet (r : Rec) (k : String) (v : J) : Rec :=
  match (r : List (String × J)) with
  | [] => [(k, v)]
  | kv :: tl => if kv.1 = k then (k, v) :: tl else kv :: recSet tl k v

/-- Python `d.update(src)`: `d[k] = v` for every binding of `src` in order. -/
def recUpdate (r : Rec) (src : Rec) : Rec :=
  (src : List (String × J)).foldl (fun acc kv => recSet acc kv.1 kv.2) r

/-- The keys of a record. -/
def recKeys (r : Rec) : List String := (r : List (String × J)).map (fun kv => kv.1)

/- ------------------------------------------------------------------
Column Identity Normalizer.

Two distinct Python implementations exist:
* `grist_processor_working_all.normalize_column_name` (default max length 50,
  `col_` prefix, md5 suffix on overflow) — used at schema-discovery time by
  `schema_utils.create_columns_from_schema` and at record-write time for the
  dossier/champ/annotation tables;
* `repetable_processor.normalize_column_name` (default max length 40, `c_`
  prefix, plain truncation) — used by the repeatable-row writer and by the
  sample-based repeatable column detection.
------------------------------------------------------------------ -/

/-- ASCII whitespace as matched by `\s` and `str.strip()` (the Unicode
whitespace code points play no role in any claim). -/
def isPyWs (c : Char) : Bool :=
  c = ' ' ∨ c = '\t' ∨ c = '\n' ∨ c = '\x0d' ∨ c = '\x0c' ∨ c = '\x0b'

/-- The character class `[a-z0-9_]` of the grist normalizer's substitution. -/
def isSafeChar (c : Char) : Bool :=
  ('a' ≤ c ∧ c ≤ 'z') ∨ ('0' ≤ c ∧ c ≤ '9') ∨ c = '_'

/-- The regex class `\w` restricted to ASCII (`[A-Za-z0-9_]`); the source
applies it only to labels whose word characters are ASCII after NFKD. -/
def isWordChar (c : Char) : Bool :=
  ('a' ≤ c ∧ c ≤ 'z') ∨ ('A' ≤ c ∧ c ≤ 'Z') ∨ ('0' ≤ c ∧ c ≤ '9') ∨ c = '_'

/-- `str.isalpha()` on the ASCII range (every call site feeds it characters
from `[a-z0-9_]` or user labels whose first character, if ASCII, is decided
exactly by this predicate). -/
def pyIsAlpha (c : Char) : Bool :=
  ('a' ≤ c ∧ c ≤ 'z') ∨ ('A' ≤ c ∧ c ≤ 'Z')

/-- Lowercase hex digits, the alphabet of `hashlib.md5(...).hexdigest()`. -/
def isHexLowerChar (c : Char) : Bool :=
  ('a' ≤ c ∧ c ≤ 'f') ∨ ('0' ≤ c ∧ c ≤ '9')

/-- `re.sub(p+, rep, .)` for a character class `p`: every maximal run of
`p`-characters is replaced by the single character `rep`.  The boolean flag
records whether the previous character belonged to a run. -/
def squash (p : Char → Bool) (rep : Char) : Bool → List Char → List Char
  | _, [] => []
  | inRun, c :: cs =>
      if p c then
        if inRun then squash p rep true cs else rep :: squash p rep true cs
      else c :: squash p rep false cs

/-- Drop leading characters satisfying `p` (`str.lstrip`-like). -/
def dropLeading (p : Char → Bool) (l : List Char) : List Char := l.dropWhile p

/-- Drop trailing characters satisfying `p` (`str.rstrip`-like). -/
def dropTrailing (p : Char → Bool) (l : List Char) : List Char :=
  (l.reverse.dropWhile p).reverse

/-- Python `str.strip(chars)` for a character class: drop from both ends. -/
def stripBoth (p : Char → Bool) (l : List Char) : List Char :=
  dropTrailing p (dropLeading p l)

/-- The Unicode/hashing library primitives the normalizers call, abstracted:
`stripAccents` is `unicodedata.normalize('NFKD', s)` followed by removal of
combining marks, `lower` is `str.lower`, `md5hex6` is
`hashlib.md5(s.encode()).hexdigest()[:6]`. -/
structure UniModel where
  stripAccents : List Char → List Char
  lower : List Char → List Char
  md5hex6 : List Char → List Char

/-- Stages 1-7 of `grist_processor_working_all.normalize_column_name`:
strip outer whitespace, squash inner whitespace runs to a single space,
strip accents, lowercase, replace every character outside `[a-z0-9_]` by
`_`, squash `_` runs, strip outer `_`. -/
def normStem (uni : UniModel) (name : List Char) : List Char :=
  stripBoth (fun c => c = '_')
    (squash (fun c => c = '_') '_' false
      ((uni.lower (uni.stripAccents
          (squash isPyWs ' ' false (stripBoth isPyWs name)))).map
        (fun c => if isSafeChar c then c else '_')))

/-- Stage 8: prefix `col_` when the stem is empty or does not start with a
letter. -/
def normPrefixed (uni : UniModel) (name : List Char) : List Char :=
  if (normStem uni name).isEmpty ∨ ¬ pyIsAlpha ((normStem uni name).headD '_') then
    "col_".toList ++ normStem uni name
  else normStem uni name

/-- `grist_processor_working_all.normalize_column_name(name, max_length)`:
the early `"column"` return for falsy input, the cleaning stages, and on
overflow truncation to `max_length - 7` characters plus `_` plus a
6-character md5 suffix of the pre-truncation name. -/
def pyNormalizeColumnName (uni : UniModel) (maxLength : Nat) (name : List Char) :
    List Char :=
  if name.isEmpty then "column".toList
  else
    if maxLength < (normPrefixed uni name).length then
      (normPrefixed uni name).take (maxLength - 7) ++ '_' :: uni.md5hex6 (normPrefixed uni name)
    else normPrefixed uni name

/-- Lowercase ASCII letters `[a-z]`. -/
def isLowerAlpha (c : Char) : Bool := 'a' ≤ c ∧ c ≤ 'z'

/-- The separator characters space and underscore. -/
def sepChar (c : Char) : Bool := c = ' ' ∨ c = '_'

/-- No two adjacent characters of the list satisfy `p`. -/
def noTwoAdjacent (p : Char → Bool) : List Char → Bool
  | [] => true
  | [_] => true
  | a :: b :: t => (!(p a && p b)) && noTwoAdjacent p (b :: t)

/-- `repetable_processor.normalize_column_name(name, max_length)`: strip
accents, delete every character that is neither a word character nor
whitespace, replace whitespace runs by `_`, prefix `c_` when not starting
with a letter, truncate to `max_length`, lowercase.  Reading `name[0]` of an
empty cleaned string raises `IndexError`, embedded as `none`. -/
def pyNormalizeColumnNameRep (uni : UniModel) (maxLength : Nat) (name : List Char) :
    Option (List Char) :=
  if name.isEmpty then some ("column".toList)
  else
    let n1 := uni.stripAccents name
    let n2 := n1.filter (fun c => isWordChar c ∨ isPyWs c)
    let n3 := squash isPyWs '_' false n2
    match n3 with
    | [] => none
    | c :: _ =>
      let n4 := if ¬ pyIsAlpha c then 'c' :: '_' :: n3 else n3
      let n5 := if maxLength < n4.length then n4.take maxLength else n4
      some (uni.lower n5)

/-- ASCII lowercasing of one character, as `str.lower` acts on ASCII. -/
def asciiLowerChar (c : Char) : Char :=
  if 'A' ≤ c ∧ c ≤ 'Z' then Char.ofNat (c.toNat + 32) else c

/-- Concrete instantiation of the library primitives, exact on the ASCII
inputs used by the concrete theorems below: NFKD is the identity on ASCII
and no ASCII character is a combining mark, `str.lower` lowercases ASCII
character-wise, and the md5 suffix is some fixed 6 lowercase hex characters
(no concrete theorem ever reaches the truncation branch). -/
def asciiUni : UniModel where
  stripAccents := fun l => l
  lower := fun l => l.map asciiLowerChar
  md5hex6 := fun _ => ['0', '0', '0', '0', '0', '0']

/-- Replace a space by an underscore, keep everything else: on separator-
disciplined plain labels both normalizers reduce to mapping this function. -/
def spaceToUscore (c : Char) : Char := if c = ' ' then '_' else c

/-- `str.lower` at the remaining call sites (blocklist comparisons and the
boolean literal list), which only ever meet ASCII text. -/
def lowerAscii (s : String) : String := String.mk (s.data.map asciiLowerChar)

/-- String-level entry point of the grist normalizer at its call sites'
default `max_length = 50`, with the ASCII primitives. -/
def normalizeA (s : String) : String :=
  String.mk (pyNormalizeColumnName asciiUni 50 s.toList)

/-- String-level entry point of the repeatable-processor normalizer at its
call sites' default `max_length = 40`, with the ASCII primitives. -/
def normalizeRepA (s : String) : Option String :=
  (pyNormalizeColumnNameRep asciiUni 40 s.toList).map String.mk

/-- `normalize_column_name` applied to a dynamic label value, as the sampling
paths do: a falsy value (`None`, `""`, `0`, `False`) hits the early
`return "column"`, a string is normalized, and a truthy non-string makes
`unicodedata.normalize` raise (`none`). -/
def normalizeLabelValue (v : J) : Option String :=
  match v with
  | J.s l => some (normalizeA l)
  | _ => if truthy v then none else some "column"

/- ------------------------------------------------------------------
Schema Discoverer / Column Set Builder (`schema_utils.py`).

A form schema's `activeRevision` carries two lists of field descriptors;
a repeatable-group descriptor carries child descriptors.  Descriptors are
dicts with keys `__typename`, `type`, `id`, `label`, `champDescriptors`;
the first four are read with `.get` (hence `Option`), and the child list is
present on every repeatable-group descriptor the API returns (the
`"champDescriptors" in descriptor` test is modelled as always true, an empty
list standing for an absent key would behave identically downstream).
------------------------------------------------------------------ -/

mutual
inductive Descriptor where
  | mk (typename : Option String) (dtype : Option String) (did : Option String)
      (dlabel : Option String) (children : DescList)
inductive DescList where
  | nil : DescList
  | cons (d : Descriptor) (tl : DescList) : DescList
end

def Descriptor.typename : Descriptor → Option String
  | .mk tn _ _ _ _ => tn

def Descriptor.dtype : Descriptor → Option String
  | .mk _ ty _ _ _ => ty

def Descriptor.did : Descriptor → Option String
  | .mk _ _ di _ _ => di

def Descriptor.dlabel : Descriptor → Option String
  | .mk _ _ _ lb _ => lb

def Descriptor.children : Descriptor → DescList
  | .mk _ _ _ _ ch => ch

def DescList.toList : DescList → List Descriptor
  | .nil => []
  | .cons d tl => d :: tl.toList

/-- A schema as consumed by the column-set builder: the two descriptor lists
of the active revision (an absent list behaves like an empty one at every
use site). -/
structure Schema where
  champDescriptors : DescList
  annotationDescriptors : DescList

/-- Whether `get_problematic_descriptor_ids_from_schema` marks one descriptor
as problematic: `__typename` is a header-section or explanation descriptor,
or `type` is `header_section` / `explication`. -/
def isProblematicDescriptor (d : Descriptor) : Bool :=
  d.typename = some "HeaderSectionChampDescriptor" ∨
  d.typename = some "ExplicationChampDescriptor" ∨
  d.dtype = some "header_section" ∨ d.dtype = some "explication"

mutual
/-- `explore_descriptors` of `get_problematic_descriptor_ids_from_schema` on
one descriptor: record its id when problematic, and recurse into the children
of a repeatable-group descriptor. -/
def problematicIdsOfDescriptor : Descriptor → List String
  | .mk tn ty di lb ch =>
      (if isProblematicDescriptor (.mk tn ty di lb ch) then di.toList else [])
      ++ (if tn = some "RepetitionChampDescriptor" then problematicIdsOfDescList ch else [])
def problematicIdsOfDescList : DescList → List String
  | .nil => []
  | .cons d tl => problematicIdsOfDescriptor d ++ problematicIdsOfDescList tl
end

/-- `get_problematic_descriptor_ids_from_schema`: walk both descriptor lists
(recursing one level into repeatable groups at each depth). -/
def problematicIdsFromSchema (sch : Schema) : List String :=
  problematicIdsOfDescList sch.champDescriptors
  ++ problematicIdsOfDescList sch.annotationDescriptors

/-- The literal `type_mapping` of `schema_utils.create_columns_from_schema`'s
inner `determine_column_type`, with the dict `.get(champ_type, "Text")`
default.  A missing `type` key (`None`) also falls to the default. -/
def schemaTypeMapping : List (String × String) :=
  [("text", "Text"), ("textarea", "Text"), ("email", "Text"), ("phone", "Text"),
   ("number", "Numeric"), ("integer_number", "Int"), ("decimal_number", "Numeric"),
   ("date", "Date"), ("datetime", "DateTime"), ("yes_no", "Bool"),
   ("checkbox", "Bool"), ("drop_down_list", "Text"),
   ("multiple_drop_down_list", "Text"), ("linked_drop_down_list", "Text"),
   ("piece_justificative", "Text"), ("iban", "Text"), ("siret", "Text"),
   ("rna", "Text"), ("titre_identite", "Text"), ("address", "Text"),
   ("commune", "Text"), ("departement", "Text"), ("region", "Text"),
   ("pays", "Text"), ("carte", "Text"), ("repetition", "Text")]

def determineColumnTypeSchema (champType : Option String) : String :=
  match champType with
  | none => "Text"
  | some t => ((schemaTypeMapping.find? (fun p => p.1 = t)).map (fun p => p.2)).getD "Text"

/-- The fixed dossier-table columns of `create_columns_from_schema`. -/
def dossierColumnsSchema : List (String × String) :=
  [("dossier_id", "Text"), ("number", "Int"), ("state", "Text"),
   ("date_depot", "DateTime"), ("date_derniere_modification", "DateTime"),
   ("date_traitement", "DateTime"), ("demandeur_type", "Text"),
   ("demandeur_civilite", "Text"), ("demandeur_nom", "Text"),
   ("demandeur_prenom", "Text"), ("demandeur_email", "Text"),
   ("demandeur_siret", "Text"), ("entreprise_raison_sociale", "Text"),
   ("usager_email", "Text"), ("groupe_instructeur_id", "Text"),
   ("groupe_instructeur_number", "Int"), ("groupe_instructeur_label", "Text"),
   ("supprime_par_usager", "Bool"), ("date_suppression", "DateTime"),
   ("prenom_mandataire", "Text"), ("nom_mandataire", "Text"),
   ("depose_par_un_tiers", "Bool"), ("label_names", "Text"),
   ("labels_json", "Text")]

/-- The geo columns appended to the repeatable-rows column set when the
schema has both repeatable blocks and map fields. -/
def geoColumnsSchema : List (String × String) :=
  [("geo_id", "Text"), ("geo_source", "Text"), ("geo_description", "Text"),
   ("geo_type", "Text"), ("geo_coordinates", "Text"), ("geo_wkt", "Text"),
   ("geo_commune", "Text"), ("geo_numero", "Text"), ("geo_section", "Text"),
   ("geo_prefixe", "Text"), ("geo_surface", "Numeric")]

/-- Does a column list already carry this column id? -/
def hasColumn (cols : List (String × String)) (cid : String) : Bool :=
  cols.any (fun c => c.1 = cid)

/-- Append a column unless the id is already present (the
`if not any(col["id"] == ... )` pattern of the source). -/
def addColumnIfNew (cols : List (String × String)) (c : String × String) :
    List (String × String) :=
  if hasColumn cols c.1 then cols else cols ++ [c]

/-- The skip test of both descriptor loops of `create_columns_from_schema`:
problematic typename or type, or id in the problematic-id set. -/
def descriptorSkipped (pids : List String) (d : Descriptor) : Bool :=
  (d.typename == some "HeaderSectionChampDescriptor") ||
  (d.typename == some "ExplicationChampDescriptor") ||
  (d.dtype == some "header_section") || (d.dtype == some "explication") ||
  (match d.did with
   | some i => pids.contains i
   | none => false)

/-- Result of `create_columns_from_schema` (the `repetable_rows` entry is only
attached to the result dict when `has_repetable_blocks`; here it is always a
field, paired with that flag). -/
structure SchemaColumns where
  dossierCols : List (String × String)
  champCols : List (String × String)
  annotationCols : List (String × String)
  repetableCols : List (String × String)
  hasRepetableBlocks : Bool
  hasCartoFields : Bool

/-- State threaded through the champ-descriptor loop. -/
structure ChampLoopState where
  champCols : List (String × String)
  repetableCols : List (String × String)
  hasRepetableBlocks : Bool
  hasCartoFields : Bool

/-- One iteration of the champ-descriptor loop of
`create_columns_from_schema`: skip problematic descriptors; for a
repeatable-group descriptor walk its children into the repeatable-rows
column set (note: the inner loop applies no problematic filter); detect map
fields; and always add the descriptor's own normalized label to the champs
column set. -/
def champDescriptorStep (pids : List String) (st : ChampLoopState) (d : Descriptor) :
    ChampLoopState :=
  if descriptorSkipped pids d then st
  else
    let st1 :=
      if d.typename = some "RepetitionChampDescriptor" then
        (d.children.toList).foldl
          (fun acc inner =>
            let acc1 :=
              if inner.dtype = some "carte" then { acc with hasCartoFields := true }
              else acc
            let normalized := normalizeA (inner.dlabel.getD "")
            let ctype := determineColumnTypeSchema inner.dtype
            { acc1 with repetableCols := addColumnIfNew acc1.repetableCols (normalized, ctype) })
          { st with hasRepetableBlocks := true }
      else if d.dtype = some "carte" then { st with hasCartoFields := true }
      else st
    let normalized := normalizeA (d.dlabel.getD "")
    let ctype := determineColumnTypeSchema d.dtype
    { st1 with champCols := addColumnIfNew st1.champCols (normalized, ctype) }

/-- One iteration of the annotation-descriptor loop: skip problematic
descriptors, strip a literal `annotation_` prefix from the label before
normalizing, and add the column.  A missing label makes
`champ_label.startswith` raise (`none`). -/
def annotationDescriptorStep (pids : List String) (cols : List (String × String))
    (d : Descriptor) : Option (List (String × String)) :=
  if descriptorSkipped pids d then some cols
  else
    match d.dlabel with
    | none => none
    | some l =>
      let lbl :=
        if l.startsWith "annotation_" then normalizeA (l.drop 11) else normalizeA l
      let ctype := determineColumnTypeSchema d.dtype
      some (addColumnIfNew cols (lbl, ctype))

/-- `create_columns_from_schema`: fixed base columns, the two descriptor
loops, and the geo-column fan-out appended once to the repeatable-rows set
when both repeatable blocks and map fields were seen. -/
def createColumnsFromSchema (sch : Schema) : Option SchemaColumns :=
  let pids := problematicIdsFromSchema sch
  let champBase : List (String × String) := [("dossier_number", "Int"), ("champ_id", "Text")]
  let annotationBase : List (String × String) := [("dossier_number", "Int")]
  let repetableBase : List (String × String) :=
    [("dossier_number", "Int"), ("block_label", "Text"), ("block_row_index", "Int"),
     ("block_row_id", "Text"), ("field_name", "Text")]
  let st := (sch.champDescriptors.toList).foldl (champDescriptorStep pids)
    { champCols := champBase, repetableCols := repetableBase,
      hasRepetableBlocks := false, hasCartoFields := false }
  match (sch.annotationDescriptors.toList).foldlM (annotationDescriptorStep pids)
      annotationBase with
  | none => none
  | some annCols =>
    let repCols :=
      if st.hasCartoFields ∧ st.hasRepetableBlocks then
        geoColumnsSchema.foldl addColumnIfNew st.repetableCols
      else st.repetableCols
    some { dossierCols := dossierColumnsSchema, champCols := st.champCols,
           annotationCols := annCols, repetableCols := repCols,
           hasRepetableBlocks := st.hasRepetableBlocks,
           hasCartoFields := st.hasCartoFields }

/- ------------------------------------------------------------------
Sample-based column type inference and merging.
------------------------------------------------------------------ -/

/-- The value-based `determine_column_type` of
`grist_processor_working_all.detect_column_types_from_multiple_dossiers`.
In Python, `bool` is a subclass of `int`, so a boolean value matches the
`isinstance(value, int)` branch first and yields `"Int"` (the later
`isinstance(value, bool)` branch is unreachable).  Floats (`"Numeric"`) and
`datetime` instances do not occur in the claims and have no constructor in
`J`.  A string is `"DateTime"` when it contains one of `-`, `T`, `:`. -/
def determineColumnTypeValue : J → String
  | J.null => "Text"
  | J.b _ => "Int"
  | J.i _ => "Int"
  | J.s v => if v.contains '-' ∨ v.contains 'T' ∨ v.contains ':' then "DateTime" else "Text"
  | J.arr _ => "Text"
  | J.obj _ => "Text"

/-- One iteration of the champ loop of
`detect_column_types_from_multiple_dossiers` (lines 266-279): skip
header/explanation entries and problematic ids; normalize the label; and
insert the value-inferred type only when the label is not yet bound —
a later sample never changes an existing binding. -/
def champColsStep (pids : List String) (acc : List (String × String)) (champ : J) :
    Option (List (String × String)) :=
  match jget champ "type" with
  | none => none
  | some tv =>
    if (match tv with
        | J.s t => (t == "HeaderSectionChamp") || (t == "ExplicationChamp")
        | _ => false) then some acc
    else if (match jget champ "id" with
        | some (J.s i) => pids.contains i
        | _ => false) then some acc
    else
      match jget champ "label" with
      | none => none
      | some lv =>
        match normalizeLabelValue lv with
        | none => none
        | some lbl =>
          if hasColumn acc lbl then some acc
          else some (acc ++ [(lbl, determineColumnTypeValue (jgetD champ "value" J.null))])

/-- The champ-column accumulation of
`detect_column_types_from_multiple_dossiers` over several sampled dossiers
(each given by its flat champ entries, in sample order). -/
def collectChampColumns (pids : List String) (samples : List (List J)) :
    Option (List (String × String)) :=
  samples.foldlM (fun acc champs => champs.foldlM (champColsStep pids) acc) []

/-- The per-field column type inference inlined in
`repetable_processor.detect_repetable_columns_in_dossier` (lines 1181-1190):
date/datetime field instances map to DateTime, decimal to Numeric, integer
to Int, checkbox and yes/no to Bool, everything else to the default Text. -/
def repetableFieldColumnType (typename : String) : String :=
  if typename = "DateChamp" ∨ typename = "DatetimeChamp" then "DateTime"
  else if typename = "DecimalNumberChamp" then "Numeric"
  else if typename = "IntegerNumberChamp" then "Int"
  else if typename = "CheckboxChamp" ∨ typename = "YesNoChamp" then "Bool"
  else "Text"

/-- The label blocklist used by the repeatable-column detection and merge. -/
def repBlocklist : List String := ["attention", "titre", "explication", "header", "section"]

/-- Python dict value assignment `all_columns[col_id] = t` on the
association-list image of the dict. -/
def setType (acc : List (String × String)) (k t : String) : List (String × String) :=
  acc.map (fun c => if c.1 = k then (k, t) else c)

/-- One merge step of `detect_repetable_columns_from_multiple_dossiers`
(lines 1241-1254): blocklisted ids are dropped; an unseen id is inserted
with its type; a conflicting id keeps the stored type unless the stored type
is Text (any non-Text wins) or Int against a Numeric/DateTime newcomer. -/
def mergeRepStep (acc : List (String × String)) (col : String × String) :
    List (String × String) :=
  if lowerAscii col.1 ∈ repBlocklist then acc
  else
    match acc.find? (fun c => c.1 = col.1) with
    | some existing =>
        if existing.2 = "Text" ∧ col.2 ≠ "Text" then setType acc col.1 col.2
        else if existing.2 = "Int" ∧ (col.2 = "Numeric" ∨ col.2 = "DateTime") then
          setType acc col.1 col.2
        else acc
    | none => acc ++ [(col.1, col.2)]

/-- The geo columns `detect_repetable_columns_from_multiple_dossiers` always
appends when missing. -/
def geoColumnsRepetable : List (String × String) :=
  ("field_name", "Text") :: geoColumnsSchema

/-- `detect_repetable_columns_from_multiple_dossiers`, taking the already
detected per-dossier column lists: merge them in order with `mergeRepStep`,
then append the missing geo columns. -/
def mergeRepetableColumnLists (dossierCols : List (List (String × String))) :
    List (String × String) :=
  let merged := dossierCols.foldl (fun acc cols => cols.foldl mergeRepStep acc) []
  geoColumnsRepetable.foldl addColumnIfNew merged

/- ------------------------------------------------------------------
Field Value Extractor and repeatable-row flattening
(`repetable_processor.py`).
------------------------------------------------------------------ -/

/-- `should_skip_field(field, problematic_ids)`: header/explanation typename,
problematic id, or header/explanation `type` tag.  All keys are read with
`.get`, so nothing raises here. -/
def shouldSkipField (field : J) (pids : List String) : Bool :=
  (match jget field "__typename" with
   | some (J.s t) => (t == "HeaderSectionChamp") || (t == "ExplicationChamp")
   | _ => false) ||
  (match jget field "id" with
   | some (J.s i) => pids.contains i
   | _ => false) ||
  (match jget field "type" with
   | some (J.s t) => (t == "header_section") || (t == "explication")
   | _ => false)

/-- Is the field's `__typename` this string? -/
def fieldTypenameIs (field : J) (t : String) : Bool :=
  match jget field "__typename" with
  | some (J.s tv) => tv == t
  | _ => false

/-- `", ".join(...)`-style joining: raises `TypeError` (`none`) unless every
element is a string. -/
def joinStrings (sep : String) (vs : List J) : Option String :=
  (vs.mapM (fun v => match v with
    | J.s x => some x
    | _ => none)).map (String.intercalate sep)

/-- `champ.get(k, {})` followed by attribute access on the result: a missing
key yields the empty dict, a present dict is used, anything else makes the
subsequent `.get` raise. -/
def getDict (champ : J) (k : String) : Option J :=
  match jget champ k with
  | none => some (J.obj [])
  | some (J.obj kvs) => some (J.obj kvs)
  | some _ => none

/-- Python `float(value)` then `int(..)` restricted to the values the claims
exercise: ints, booleans (`bool` is an int subclass), and integral numeric
strings; fractional strings do not occur and are mapped to the `ValueError`
outcome together with genuinely unparsable strings. -/
def pyFloatInt : J → Option Int
  | J.i n => some n
  | J.b v => some (if v then 1 else 0)
  | J.s v => v.toInt?
  | _ => none

/-- Shape of one strptime date component `%Y-%m-%d`. -/
def dtCheckDate (l : List Char) : Bool :=
  l.length = 10 ∧ (l.take 4).all Char.isDigit ∧ l.get? 4 = some '-' ∧
  ((l.drop 5).take 2).all Char.isDigit ∧ l.get? 7 = some '-' ∧
  (l.drop 8).all Char.isDigit

/-- Shape of one strptime time component `%H:%M:%S`. -/
def dtCheckTime (l : List Char) : Bool :=
  l.length = 8 ∧ (l.take 2).all Char.isDigit ∧ l.get? 2 = some ':' ∧
  ((l.drop 3).take 2).all Char.isDigit ∧ l.get? 5 = some ':' ∧
  (l.drop 6).all Char.isDigit

/-- The `datetime.strptime` cascade of `format_value_for_grist` over the four
formats `%Y-%m-%dT%H:%M:%S.%fZ`, `%Y-%m-%dT%H:%M:%SZ`, `%Y-%m-%d %H:%M:%S`,
`%Y-%m-%d`, re-rendered as `%Y-%m-%dT%H:%M:%SZ`.  Field-range validation
(month at most 12 and so on) is not modelled; no claim exercises it. -/
def tryParseDt (v : String) : Option String :=
  let cs := v.toList
  let datePart := cs.take 10
  let timePart := (cs.drop 11).take 8
  let canon : List Char → List Char → String :=
    fun d t => String.mk (d ++ 'T' :: t) ++ "Z"
  if dtCheckDate datePart ∧ cs.get? 10 = some 'T' ∧ dtCheckTime timePart ∧
      cs.get? 19 = some '.' ∧ (cs.drop 20).getLast? = some 'Z' ∧
      ((cs.drop 20).dropLast ≠ []) ∧ ((cs.drop 20).dropLast).all Char.isDigit ∧
      ((cs.drop 20).dropLast).length ≤ 6 then
    some (canon datePart timePart)
  else if cs.length = 20 ∧ dtCheckDate datePart ∧ cs.get? 10 = some 'T' ∧
      dtCheckTime timePart ∧ cs.get? 19 = some 'Z' then
    some (canon datePart timePart)
  else if cs.length = 19 ∧ dtCheckDate datePart ∧ cs.get? 10 = some ' ' ∧
      dtCheckTime timePart then
    some (canon datePart timePart)
  else if cs.length = 10 ∧ dtCheckDate datePart then
    some (canon datePart "00:00:00".toList)
  else none

/-- `format_value_for_grist(value, value_type)`: `None` passes through;
DateTime re-renders parsable strings; Text truncates long strings at 1000
characters and stringifies everything else; Int/Numeric convert truthy
values through `float` (`None` on conversion failure); Bool keeps booleans,
tests strings against a literal list, and takes truthiness otherwise. -/
def formatValueForGrist (value : J) (vtype : String) : J :=
  match value with
  | J.null => J.null
  | _ =>
    if vtype = "DateTime" then
      match value with
      | J.s v =>
          if v ≠ "" then
            match tryParseDt v with
            | some out => J.s out
            | none => J.s v
          else J.s v
      | _ => value
    else if vtype = "Text" then
      match value with
      | J.s v => if 1000 < v.length then J.s (v.take 1000 ++ "...") else J.s v
      | _ => J.s (pyStr value)
    else if vtype = "Int" ∨ vtype = "Numeric" then
      if truthy value then
        match pyFloatInt value with
        | some n => J.i n
        | none => J.null
      else J.null
    else if vtype = "Bool" then
      match value with
      | J.b v => J.b v
      | J.s v => J.b (["true", "1", "yes", "oui", "vrai"].contains (lowerAscii v))
      | _ => J.b (truthy value)
    else value

/-- The type-directed part of `repetable_processor.extract_field_value` once
the typename is known to be the string `tn` (the `elif` chain; a branch whose
extra guard fails falls through to the final `stringValue` default, exactly
as the Python `elif` conditions do). -/
def extractFieldValueCore (champ : J) (tn : String) : Option (J × J) :=
  if tn = "DateChamp" then some (jgetD champ "date" J.null, J.null)
  else if tn = "DatetimeChamp" then some (jgetD champ "datetime" J.null, J.null)
  else if tn = "CheckboxChamp" then some (jgetD champ "checked" J.null, J.null)
  else if tn = "YesNoChamp" then some (jgetD champ "selected" J.null, J.null)
  else if tn = "DecimalNumberChamp" then some (jgetD champ "decimalNumber" J.null, J.null)
  else if tn = "IntegerNumberChamp" then some (jgetD champ "integerNumber" J.null, J.null)
  else if tn = "CiviliteChamp" then some (jgetD champ "civilite" J.null, J.null)
  else if tn = "LinkedDropDownListChamp" then
    let primary := jgetD champ "primaryValue" (J.s "")
    let secondary := jgetD champ "secondaryValue" (J.s "")
    let value :=
      if truthy primary ∧ truthy secondary then J.s (pyStr primary ++ " - " ++ pyStr secondary)
      else if truthy primary then primary else secondary
    some (value, J.obj [("primaryValue", primary), ("secondaryValue", secondary)])
  else if tn = "MultipleDropDownListChamp" then
    let valuesList := jgetD champ "values" (J.arr [])
    if truthy valuesList then
      match valuesList with
      | J.arr xs =>
          match joinStrings ", " xs with
          | some joined => some (J.s joined, valuesList)
          | none => none
      | _ => none
    else some (J.null, valuesList)
  else if tn = "PieceJustificativeChamp" then
    let files := jgetD champ "files" (J.arr [])
    if truthy files then
      match files with
      | J.arr fs =>
          if fs.all (fun f => match f with | J.obj _ => true | _ => false) then
            let names := (fs.map (fun f => jgetD f "filename" (J.s ""))).filter truthy
            match joinStrings ", " names with
            | some joined => some (J.s joined, files)
            | none => none
          else none
      | _ => none
    else some (J.null, files)
  else if tn = "AddressChamp" ∧ truthy (jgetD champ "address" J.null) then
    match getDict champ "address" with
    | none => none
    | some address =>
      let value := J.s (pyStr (jgetD address "streetAddress" (J.s "")) ++ ", " ++
        pyStr (jgetD address "postalCode" (J.s "")) ++ " " ++
        pyStr (jgetD address "cityName" (J.s "")))
      let commune := jgetD champ "commune" J.null
      let departement := jgetD champ "departement" J.null
      let jsonValue :=
        if truthy commune ∨ truthy departement then
          J.obj ([("address", address)] ++
            (if truthy commune then [("commune", commune)] else []) ++
            (if truthy departement then [("departement", departement)] else []))
        else address
      some (value, jsonValue)
  else if tn = "SiretChamp" ∧ truthy (jgetD champ "etablissement" J.null) then
    match getDict champ "etablissement" with
    | none => none
    | some etab =>
      match getDict etab "entreprise" with
      | none => none
      | some entreprise =>
        let siret := jgetD etab "siret" (J.s "")
        let raison := jgetD entreprise "raisonSociale" (J.s "")
        let value :=
          if truthy siret ∧ truthy raison then J.s (pyStr siret ++ " - " ++ pyStr raison)
          else if truthy siret then siret else raison
        some (value, etab)
  else if tn = "CarteChamp" then
    let geoAreas := jgetD champ "geoAreas" (J.arr [])
    if truthy geoAreas then
      match geoAreas with
      | J.arr areas =>
          if areas.all (fun a => match a with | J.obj _ => true | _ => false) then
            let descriptions := areas.map (fun a =>
              let d := jgetD a "description" (J.s "Sans description")
              if truthy d then d else J.s "Sans description")
            match joinStrings "; " descriptions with
            | some joined => some (J.s joined, geoAreas)
            | none => none
          else none
      | _ => none
    else some (J.s "Aucune zone géographique définie", J.null)
  else if tn = "DossierLinkChamp" ∧ truthy (jgetD champ "dossier" J.null) then
    match getDict champ "dossier" with
    | none => none
    | some linked =>
      let number := jgetD linked "number" (J.s "")
      let state := jgetD linked "state" (J.s "")
      let value :=
        if truthy number then
          J.s ("Dossier #" ++ pyStr number ++ " (" ++ pyStr state ++ ")")
        else J.s "Aucun dossier lié"
      some (value, linked)
  else if tn = "TextChamp" then some (jgetD champ "stringValue" (J.s ""), J.null)
  else if tn = "CommuneChamp" then
    match getDict champ "commune" with
    | none => none
    | some commune =>
      let communeName := jgetD commune "name" (J.s "")
      let communeCode := jgetD commune "code" (J.s "")
      let departement := jgetD champ "departement" (J.obj [])
      match (if truthy departement then
              match departement with
              | J.obj _ => some (jgetD departement "name" (J.s ""))
              | _ => none
            else some (J.s "")) with
      | none => none
      | some deptName =>
        let v1 :=
          if truthy communeName then
            pyStr communeName ++ " (" ++ pyStr communeCode ++ ")"
          else ""
        let v2 :=
          if truthy deptName then
            (if v1 ≠ "" then v1 ++ ", " ++ pyStr deptName else pyStr deptName)
          else v1
        let jsonValue :=
          if truthy departement then
            J.obj [("commune", commune), ("departement", departement)]
          else J.obj [("commune", commune)]
        some (J.s v2, jsonValue)
  else if tn = "RegionChamp" ∧ truthy (jgetD champ "region" J.null) then
    match getDict champ "region" with
    | none => none
    | some region =>
      let name := jgetD region "name" (J.s "")
      let code := jgetD region "code" (J.s "")
      let value :=
        if truthy name ∧ truthy code then J.s (pyStr name ++ " (" ++ pyStr code ++ ")")
        else if truthy name then name else code
      some (value, region)
  else if tn = "DepartementChamp" ∧ truthy (jgetD champ "departement" J.null) then
    match getDict champ "departement" with
    | none => none
    | some departement =>
      let name := jgetD departement "name" (J.s "")
      let code := jgetD departement "code" (J.s "")
      let value :=
        if truthy name ∧ truthy code then J.s (pyStr name ++ " (" ++ pyStr code ++ ")")
        else if truthy name then name else code
      some (value, departement)
  else if tn = "EpciChamp" ∧ truthy (jgetD champ "epci" J.null) then
    match getDict champ "epci" with
    | none => none
    | some epci =>
      let name := jgetD epci "name" (J.s "")
      let code := jgetD epci "code" (J.s "")
      let v0 :=
        if truthy name ∧ truthy code then J.s (pyStr name ++ " (" ++ pyStr code ++ ")")
        else if truthy name then name else code
      let departement := jgetD champ "departement" J.null
      match (if truthy departement then
              match departement with
              | J.obj _ => some (jgetD departement "name" (J.s ""))
              | _ => none
            else some J.null) with
      | none => none
      | some deptName =>
        let value :=
          if truthy departement then
            (if truthy v0 ∧ truthy deptName then J.s (pyStr v0 ++ ", " ++ pyStr deptName)
             else if truthy v0 then v0 else deptName)
          else v0
        let jsonValue :=
          if truthy departement then J.obj [("epci", epci), ("departement", departement)]
          else J.obj [("epci", epci)]
        some (value, jsonValue)
  else if tn = "RNFChamp" ∧ truthy (jgetD champ "rnf" J.null) then
    match getDict champ "rnf" with
    | none => none
    | some rnf =>
      match getDict rnf "address" with
      | none => none
      | some rnfAddress =>
        let title := jgetD rnf "title" (J.s "")
        let cityName := jgetD rnfAddress "cityName" (J.s "")
        let postalCode := jgetD rnfAddress "postalCode" (J.s "")
        let value :=
          if truthy title then
            (if truthy cityName ∧ truthy postalCode then
              J.s (pyStr title ++ " - " ++ pyStr cityName ++ " (" ++ pyStr postalCode ++ ")")
            else title)
          else J.s ""
        let commune := jgetD champ "commune" J.null
        let departement := jgetD champ "departement" J.null
        let jsonValue := J.obj ([("rnf", rnf)] ++
          (if truthy commune then [("commune", commune)] else []) ++
          (if truthy departement then [("departement", departement)] else []))
        some (value, jsonValue)
  else if tn = "EngagementJuridiqueChamp" ∧ truthy (jgetD champ "engagementJuridique" J.null) then
    match getDict champ "engagementJuridique" with
    | none => none
    | some engagement =>
      let montantEngage := jgetD engagement "montantEngage" J.null
      let montantPaye := jgetD engagement "montantPaye" J.null
      let v1 :=
        match montantEngage with
        | J.null => ""
        | m => "Montant engagé: " ++ pyStr m
      let v2 :=
        match montantPaye with
        | J.null => v1
        | m => if v1 ≠ "" then v1 ++ ", Montant payé: " ++ pyStr m
               else "Montant payé: " ++ pyStr m
      some (J.s v2, engagement)
  else some (jgetD champ "stringValue" J.null, J.null)

/-- `repetable_processor.extract_field_value(champ)`: skipped fields yield
`(None, None)`; otherwise dispatch on `champ["__typename"]` (raising when
the key is missing); a non-string typename matches no branch and falls to
the `stringValue` default. -/
def extractFieldValue (champ : J) : Option (J × J) :=
  if shouldSkipField champ [] then some (J.null, J.null)
  else
    match jget champ "__typename" with
    | none => none
    | some (J.s tn) => extractFieldValueCore champ tn
    | some _ => some (jgetD champ "stringValue" J.null, J.null)

/-- Scalar equality as Python `==` compares coordinates (ints and strings;
the `0 == False` cross-type cases never arise inside geometry payloads). -/
def eqScalar : J → J → Bool
  | J.null, J.null => true
  | J.b x, J.b y => x == y
  | J.i x, J.i y => x == y
  | J.s x, J.s y => x == y
  | _, _ => false

/-- Point equality for the ring-closing test `ring[0] != ring[-1]`: exact for
the GeoJSON shape (a point is a flat array of scalars). -/
def eqPoint : J → J → Bool
  | J.arr xs, J.arr ys =>
      (xs.length == ys.length) && (List.zip xs ys).all (fun p => eqScalar p.1 p.2)
  | x, y => eqScalar x y

/-- `f"{p[0]} {p[1]}"` on a coordinate pair; an out-of-range index or a
non-list raises inside the WKT `try` (`none`). -/
def pointWkt (p : J) : Option String :=
  match p with
  | J.arr (x :: y :: _) => some (pyStr x ++ " " ++ pyStr y)
  | _ => none

/-- One LineString coordinate list rendered as `X1 Y1, X2 Y2, ...`. -/
def lineWkt (coords : J) : Option String :=
  match coords with
  | J.arr ps => (ps.mapM pointWkt).map (String.intercalate ", ")
  | _ => none

/-- One polygon ring rendered as `(X1 Y1, ..., X1 Y1)`, closing the ring by
appending the first point when the last point differs from it.  An empty
ring raises at `ring[0]`. -/
def ringWkt (ring : J) : Option String :=
  match ring with
  | J.arr (p0 :: rest) =>
      let pts := p0 :: rest
      let closed :=
        match pts.getLast? with
        | some plast => if eqPoint p0 plast then pts else pts ++ [p0]
        | none => pts
      (closed.mapM pointWkt).map (fun l => "(" ++ String.intercalate ", " l ++ ")")
  | _ => none

/-- The WKT construction of `extract_geo_data` for one geometry type tag;
`none` stands both for the unsupported-type outcomes (GeometryCollection,
unknown tags) and for a caught per-area exception — in either case the
Python code stores a null `geo_wkt`. -/
def wktOf (t : String) (coords : J) : Option String :=
  if t = "Point" then (pointWkt coords).map (fun sp => "POINT(" ++ sp ++ ")")
  else if t = "LineString" then (lineWkt coords).map (fun sl => "LINESTRING(" ++ sl ++ ")")
  else if t = "Polygon" then
    match coords with
    | J.arr rings =>
        (rings.mapM ringWkt).map (fun rs => "POLYGON(" ++ String.intercalate ", " rs ++ ")")
    | _ => none
  else if t = "MultiPoint" then
    match coords with
    | J.arr ps =>
        (ps.mapM pointWkt).map (fun l =>
          "MULTIPOINT(" ++ String.intercalate ", " (l.map (fun sp => "(" ++ sp ++ ")")) ++ ")")
    | _ => none
  else if t = "MultiLineString" then
    match coords with
    | J.arr ls =>
        (ls.mapM lineWkt).map (fun ss =>
          "MULTILINESTRING(" ++ String.intercalate ", " (ss.map (fun sl => "(" ++ sl ++ ")")) ++ ")")
    | _ => none
  else if t = "MultiPolygon" then
    match coords with
    | J.arr polys =>
        (polys.mapM (fun poly =>
          match poly with
          | J.arr rings =>
              (rings.mapM ringWkt).map (fun rs => "(" ++ String.intercalate ", " rs ++ ")")
          | _ => none)).map (fun ps =>
            "MULTIPOLYGON(" ++ String.intercalate ", " ps ++ ")")
    | _ => none
  else none

/-- `extract_geo_data(geo_area)`: the fixed attribute projection, the raw
coordinates dumped as JSON when truthy, and the WKT when both the type tag
and the coordinates are truthy.  A non-dict area or geometry raises outside
the WKT `try` and kills the row (`none`). -/
def extractGeoData (geoArea : J) : Option Rec :=
  match geoArea with
  | J.obj _ =>
    let base : Rec :=
      [("geo_id", jgetD geoArea "id" J.null),
       ("geo_source", jgetD geoArea "source" J.null),
       ("geo_description", jgetD geoArea "description" (J.s "Sans description")),
       ("geo_commune", jgetD geoArea "commune" J.null),
       ("geo_numero", jgetD geoArea "numero" J.null),
       ("geo_section", jgetD geoArea "section" J.null),
       ("geo_prefixe", jgetD geoArea "prefixe" J.null),
       ("geo_surface", jgetD geoArea "surface" J.null)]
    match getDict geoArea "geometry" with
    | none => none
    | some geometry =>
      let geoType := jgetD geometry "type" J.null
      let coords := jgetD geometry "coordinates" J.null
      let r1 := recSet base "geo_type" geoType
      let r2 :=
        if truthy coords then recSet r1 "geo_coordinates" (J.s (dumpJ coords)) else r1
      let r3 :=
        if truthy geoType ∧ truthy coords then
          recSet r2 "geo_wkt"
            (match geoType with
             | J.s t =>
                match wktOf t coords with
                | some w => J.s w
                | none => J.null
             | _ => J.null)
        else r2
      some r3
  | _ => none

/-- The repeatable-processor normalizer applied to a dynamic label value
(`normalize_column_name(field["label"])`): falsy values hit the early
`return "column"`, strings are normalized (possibly raising `IndexError`),
truthy non-strings make `unicodedata.normalize` raise. -/
def normalizeRepLabelValue (v : J) : Option String :=
  match v with
  | J.s l => normalizeRepA l
  | _ => if truthy v then none else some "column"

/-- `next((col["type"] for col in column_types if col["id"] == key), "Text")`. -/
def colTypeFor (columnTypes : List (String × String)) (key : String) : String :=
  match columnTypes.find? (fun c => c.1 = key) with
  | some c => c.2
  | none => "Text"

/-- Python's list comprehension `[f(a) for a in l]` over fallible `f`:
`none` as soon as one element raises. -/
def mapOption {α β : Type} (f : α → Option β) : List α → Option (List β)
  | [] => some ([] : List β)
  | a :: t =>
    match f a with
    | none => none
    | some b =>
      match mapOption f t with
      | none => none
      | some bs => some (b :: bs)

/-- A fallible left fold: the sequential loop body applied to each element,
`none` as soon as one iteration raises. -/
def foldlOpt {σ α : Type} (f : σ → α → Option σ) : σ → List α → Option σ
  | s, [] => some s
  | s, a :: t =>
    match f s a with
    | none => none
    | some s2 => foldlOpt f s2 t

/-- One iteration of the field loop of one repeatable row in
`process_repetables_batch.extract_repetable_rows` (lines 919-951): skip
problematic fields, normalize the label, apply the blocklist, extract the
value, drop fields whose value and JSON value are both `None`, store the
formatted value under the normalized label, and collect the geo records of
map fields with truthy geo areas.  Any raising step kills the whole row
(the enclosing per-row `try` logs and produces no records). -/
def collectFieldStep (columnTypes : List (String × String)) (pids : List String)
    (st : Rec × List Rec) (field : J) : Option (Rec × List Rec) :=
  if shouldSkipField field pids then some st
  else
    match jget field "label" with
    | none => none
    | some lv =>
      match normalizeRepLabelValue lv with
      | none => none
      | some normalized =>
        if lowerAscii normalized ∈ repBlocklist then some st
        else
          match extractFieldValue field with
          | none => none
          | some (value, jsonValue) =>
            match value, jsonValue with
            | J.null, J.null => some st
            | _, _ =>
              let ctype := colTypeFor columnTypes normalized
              let rowData := recSet st.1 normalized (formatValueForGrist value ctype)
              if fieldTypenameIs field "CarteChamp" ∧ truthy (jgetD field "geoAreas" J.null) then
                match jgetD field "geoAreas" (J.arr []) with
                | J.arr areas =>
                    match mapOption (fun a =>
                        (extractGeoData a).map
                          (fun gd => recSet gd "field_name" (J.s normalized))) areas with
                    | none => none
                    | some gds => some (rowData, st.2 ++ gds)
                | _ => none
              else some (rowData, st.2)

/-- The whole field loop of one repeatable row: `collectFieldStep` folded
over the row's field instances, starting from an empty `row_data` and an
empty geo-record list. -/
def collectRowFields (columnTypes : List (String × String)) (pids : List String)
    (fields : List J) : Option (Rec × List Rec) :=
  foldlOpt (collectFieldStep columnTypes pids)
    ((([] : List (String × J)), ([] : List Rec))) fields

/-- The keys a geo record can carry: the fixed attribute projection of
`extract_geo_data` plus the `field_name` added by the caller. -/
def geoFieldKeys : List String :=
  ["geo_id", "geo_source", "geo_description", "geo_commune", "geo_numero",
   "geo_section", "geo_prefixe", "geo_surface", "geo_type", "geo_coordinates",
   "geo_wkt", "field_name"]

/-- `row.get("id", f"row_{row_index}")` (with the 0-based loop index). -/
def rowIdValue (row : J) (rowIndex : Nat) : J :=
  jgetD row "id" (J.s ("row_" ++ toString rowIndex))

/-- The base record of one repeatable row: dossier number, block label,
1-based row index, row id. -/
def baseRecordOf (dossierNumber : Int) (blockLabel : String) (rowIndex : Nat)
    (rowId : J) : Rec :=
  [("dossier_number", J.i dossierNumber), ("block_label", J.s blockLabel),
   ("block_row_index", J.i (rowIndex + 1)), ("block_row_id", rowId)]

/-- `for key, value in geo_data.items(): geo_record[key] = format_value_for_grist(value, ...)`. -/
def applyGeoFields (columnTypes : List (String × String)) (r : Rec) (gd : Rec) : Rec :=
  (gd : List (String × J)).foldl
    (fun acc kv => recSet acc kv.1 (formatValueForGrist kv.2 (colTypeFor columnTypes kv.1))) r

/-- The flattening of one repeatable-group row into repeatable-row records
(`process_repetables_batch`, lines 913-1027): collect the row's field data
and geo records; with at least one geo record, emit one record per geo area,
each the base record updated with the shared field data, a `block_row_id`
suffixed `_geo<k>` (1-based), and that area's formatted geo attributes;
with none, emit the single base-plus-field-data record.  `none` models a
raising row, which the enclosing `try` turns into zero records.  (Whether a
record then goes to the update or the create batch depends only on the
existing-row index, not on the record's content, and is modelled with the
write phase further below.) -/
def processRepRow (columnTypes : List (String × String)) (pids : List String)
    (dossierNumber : Int) (blockLabel : String) (rowIndex : Nat) (row : J) :
    Option (List Rec) :=
  match (match jget row "champs" with
         | none => some (([] : List (String × J)), ([] : List Rec))
         | some (J.arr fields) => collectRowFields columnTypes pids fields
         | some _ => none) with
  | none => none
  | some (rowData, geoList) =>
    let rowId := rowIdValue row rowIndex
    let base := baseRecordOf dossierNumber blockLabel rowIndex rowId
    if geoList.isEmpty then some [recUpdate base rowData]
    else
      some (geoList.enum.map (fun p =>
        let geoIdent := pyStr rowId ++ "_geo" ++ toString (p.1 + 1)
        applyGeoFields columnTypes
          (recSet (recUpdate base rowData) "block_row_id" (J.s geoIdent)) p.2))

/- ------------------------------------------------------------------
Table Reconciler batch-write step.

The write phase is embedded as a pure function of the records and of an
oracle giving each HTTP call's success, and it also returns the trace of
calls issued, so that retry behaviour is visible in the statement.  Record
contents are irrelevant to the retry policy, so records are an arbitrary
type.  (The field-name padding the source performs before writing maps each
record to a padded record one-to-one and changes neither the batching nor
the retries; it is not repeated here.)
------------------------------------------------------------------ -/

/-- One HTTP write call: a batched `PATCH`, an individual `PATCH` retry of
one record, or a batched `POST`.  The source contains no individual `POST`
of a failed create-batch member, hence no such constructor arises. -/
inductive WCall (α : Type) where
  | updBatch (recs : List α)
  | updOne (r : α)
  | createBatch (recs : List α)
deriving Repr, DecidableEq

/-- `lst[i:i+n]` slices of `for i in range(0, len(lst), n)`, fuelled by the
list length (for `0 < n` the fuel suffices, and `n = 0` would make Python's
`range` raise). -/
def chunksAux {α : Type} (n : Nat) : Nat → List α → List (List α)
  | 0, _ => []
  | _, [] => []
  | Nat.succ fuel, l => l.take n :: chunksAux n fuel (l.drop n)

/-- The batches of size `n` of a list. -/
def chunks {α : Type} (n : Nat) (l : List α) : List (List α) :=
  chunksAux n l.length l

/-- The update loop of `process_repetables_batch` (lines 1080-1102) over the
already-built batches, starting at batch index `idx`: a successful batched
`PATCH` counts the whole batch as successes; a failed one is followed by one
individual `PATCH` per record of that batch, each counted success or error
on its own. -/
def processUpdateBatchesAux {α : Type} (iOk : α → Bool) (bOk : Nat → Bool) :
    Nat → List (List α) → Nat × Nat × List (WCall α)
  | _, [] => (0, 0, [])
  | idx, c :: cs =>
    let rest := processUpdateBatchesAux iOk bOk (idx + 1) cs
    if bOk idx then
      (c.length + rest.1, rest.2.1, WCall.updBatch c :: rest.2.2)
    else
      ((c.filter iOk).length + rest.1,
       (c.filter (fun r => ! iOk r)).length + rest.2.1,
       WCall.updBatch c :: (c.map WCall.updOne ++ rest.2.2))

/-- The create loop of `process_repetables_batch` (lines 1104-1117): a failed
batched `POST` adds the whole batch to the error count, with no further
call. -/
def processCreateBatchesAux {α : Type} (bOk : Nat → Bool) :
    Nat → List (List α) → Nat × Nat × List (WCall α)
  | _, [] => (0, 0, [])
  | idx, c :: cs =>
    let rest := processCreateBatchesAux bOk (idx + 1) cs
    if bOk idx then (c.length + rest.1, rest.2.1, WCall.createBatch c :: rest.2.2)
    else (rest.1, c.length + rest.2.1, WCall.createBatch c :: rest.2.2)

/-- The whole write phase of `process_repetables_batch`: chunk the update and
create lists by `batch_size` and run the two loops, aggregating
`(total_success, total_errors)` and the call trace. -/
def processRepetablesWrites {α : Type} (batchSize : Nat) (updates creates : List α)
    (ubOk : Nat → Bool) (uiOk : α → Bool) (cbOk : Nat → Bool) :
    Nat × Nat × List (WCall α) :=
  let u := processUpdateBatchesAux uiOk ubOk 0 (chunks batchSize updates)
  let c := processCreateBatchesAux cbOk 0 (chunks batchSize creates)
  (u.1 + c.1, u.2.1 + c.2.1, u.2.2 ++ c.2.2)

/-- The sum of the lengths of the batches whose write call failed, starting
at batch index `idx` — the error count the create loop is claimed to
produce. -/
def sumFailedLens {α : Type} (bOk : Nat → Bool) : Nat → List (List α) → Nat
  | _, [] => 0
  | idx, c :: cs => (if bOk idx then 0 else c.length) + sumFailedLens bOk (idx + 1) cs

/-- The update phase of `GristClient.upsert_multiple_dossiers_in_grist`
(lines 1383-1409, the non-champ-table branch): one batched `PATCH` for all
updates; on failure, one individual `PATCH` per record. -/
def upsertUpdatePhase {α : Type} (batchOk : Bool) (iOk : α → Bool) (updates : List α) :
    Nat × Nat × List (WCall α) :=
  if updates.isEmpty then (0, 0, [])
  else if batchOk then (updates.length, 0, [WCall.updBatch updates])
  else ((updates.filter iOk).length, (updates.filter (fun r => ! iOk r)).length,
        WCall.updBatch updates :: updates.map WCall.updOne)

/-- The create phase of `GristClient.upsert_multiple_dossiers_in_grist`
(lines 1412-1434): one batched `POST`; on failure every record of the batch
is counted as an error and no further call is made. -/
def upsertCreatePhase {α : Type} (batchOk : Bool) (creates : List α) :
    Nat × Nat × List (WCall α) :=
  if creates.isEmpty then (0, 0, [])
  else if batchOk then (creates.length, 0, [WCall.createBatch creates])
  else (0, creates.length, [WCall.createBatch creates])

/- ------------------------------------------------------------------
Batch Upsert Orchestrator run-level result
(`process_demarche_for_grist_optimized`, lines 2606-2667).
------------------------------------------------------------------ -/

/-- `set.add` on the string image of a dossier number. -/
def addUnique (s : List String) (x : String) : List String :=
  if s.contains x then s else s ++ [x]

/-- The per-batch bookkeeping of the orchestrator: after each case-table
batch upsert, every record's dossier number (skipping falsy ones, the
`if dossier_num:` test) joins `successful_dossiers` when the batch call
reported success and `failed_dossiers` otherwise.  A batch is its records'
dossier numbers paired with that success flag. -/
def runSetsRecordStep (ok : Bool) (st : List String × List String) (n : Int) :
    List String × List String :=
  if n != 0 then
    if ok then (addUnique st.1 (toString n), st.2)
    else (st.1, addUnique st.2 (toString n))
  else st

/-- See `runSets`: the bookkeeping after one batch upsert call. -/
def runSetsBatchStep (st : List String × List String) (batch : List Int × Bool) :
    List String × List String :=
  batch.1.foldl (runSetsRecordStep batch.2) st

def runSets (batches : List (List Int × Bool)) : List String × List String :=
  batches.foldl runSetsBatchStep ([], [])

/-- The run-level result: `total_success = len(successful_dossiers)` and the
function returns `total_success > 0 or schema_method_successful`. -/
def processDemarcheResult (schemaOk : Bool) (batches : List (List Int × Bool)) : Bool :=
  decide (0 < (runSets batches).1.length) || schemaOk

/- ------------------------------------------------------------------
Concrete example inputs used by the theorems.
------------------------------------------------------------------ -/

/-- A schema whose single champ descriptor is a repeatable block containing a
header-section child labelled `Attention` (and an ordinary text child):
exactly the shape on which the builder's inner loop applies no
header/explanation filter. -/
def exSchemaHeaderInBlock : Schema where
  champDescriptors :=
    .cons (.mk (some "RepetitionChampDescriptor") (some "repetition") (some "r1")
      (some "Parcelles")
      (.cons (.mk (some "HeaderSectionChampDescriptor") (some "header_section")
          (some "h1") (some "Attention") .nil)
        (.cons (.mk (some "TextChampDescriptor") (some "text") (some "t1")
          (some "Surface") .nil) .nil))) .nil
  annotationDescriptors := .nil

/-- The same flat champ label observed with value `None` in a first sampled
dossier and with the integer `5` in a second one. -/
def exChampSampleNull : J :=
  J.obj [("type", J.s "TextChamp"), ("id", J.null), ("label", J.s "X"), ("value", J.null)]

/-- See `exChampSampleNull`. -/
def exChampSampleInt : J :=
  J.obj [("type", J.s "IntegerNumberChamp"), ("id", J.null), ("label", J.s "X"),
         ("value", J.i 5)]

/-- A geo area whose Polygon ring `[[0,0],[1,0],[1,1]]` is not closed. -/
def exUnclosedPolygonArea : J :=
  J.obj [("id", J.s "g1"), ("source", J.s "selection_utilisateur"),
    ("geometry", J.obj [("type", J.s "Polygon"),
      ("coordinates", J.arr [J.arr [J.arr [J.i 0, J.i 0], J.arr [J.i 1, J.i 0],
        J.arr [J.i 1, J.i 1]]])])]

/-- A map-kind field instance carrying three geo areas. -/
def exCarteField : J :=
  J.obj [("__typename", J.s "CarteChamp"), ("id", J.s "c9"), ("label", J.s "Zone"),
    ("geoAreas", J.arr [exUnclosedPolygonArea,
      J.obj [("id", J.s "g2"), ("geometry", J.obj [("type", J.s "Point"),
        ("coordinates", J.arr [J.i 2, J.i 3])])],
      J.obj [("id", J.s "g3")]])]

/-- An ordinary text field instance. -/
def exTextField : J :=
  J.obj [("__typename", J.s "TextChamp"), ("id", J.s "t9"), ("label", J.s "Nom"),
    ("stringValue", J.s "abc")]

/-- The field list of the example repeatable row. -/
def exRowFields : List J := [exTextField, exCarteField]

/-- A repeatable-group row with one text field and one map field with three
geo areas. -/
def exRow : J := J.obj [("id", J.s "r77"), ("champs", J.arr exRowFields)]

/-- A repeatable-group row with the text field only. -/
def exRowNoGeo : J := J.obj [("id", J.s "r78"), ("champs", J.arr [exTextField])]

/-- Column types for the example rows. -/
def exColumnTypes : List (String × String) := [("nom", "Text"), ("zone", "Text")]

/- ==================================================================
Theorems.
================================================================== -/

/-- C3: for geometry kind Polygon with the single unclosed input ring
`[[0,0],[1,0],[1,1]]`, `extract_geo_data` stores exactly the WKT string
`POLYGON((0 0, 1 0, 1 1, 0 0))` — the ring whose last point differs from its
first is closed by appending the first point before rendering. -/
theorem wkt_polygon_autocloses_unclosed_ring :
    (extractGeoData exUnclosedPolygonArea).map (fun gd => recGetStr gd "geo_wkt")
      = some (some "POLYGON((0 0, 1 0, 1 1, 0 0))") := by
  decide

/-- C5 counterexample: the schema-based per-descriptor column type inference
maps the `date` kind to `Date`, not to `DateTime` as the claim states. -/
theorem column_type_date_maps_to_Date :
    determineColumnTypeSchema (some "date") = "Date" ∧
    determineColumnTypeSchema (some "date") ≠ "DateTime" := by
  decide

/-- C5 amended: in the schema-based inference, `datetime` maps to DateTime
but `date` maps to `Date`; `decimal_number` and `number` map to Numeric,
`integer_number` to Int, `checkbox` and `yes_no` to Bool; every other kind
tag — including unknown ones and a missing tag — maps to Text, so the
mapping is total with values among the six type names.  The dossier-sampling
repeatable detection maps both date kinds to DateTime, decimal to Numeric,
integer to Int, checkbox and yes/no to Bool, and everything else to Text. -/
theorem column_type_inference_total_with_date_exception :
    determineColumnTypeSchema (some "datetime") = "DateTime" ∧
    determineColumnTypeSchema (some "date") = "Date" ∧
    determineColumnTypeSchema (some "decimal_number") = "Numeric" ∧
    determineColumnTypeSchema (some "number") = "Numeric" ∧
    determineColumnTypeSchema (some "integer_number") = "Int" ∧
    determineColumnTypeSchema (some "checkbox") = "Bool" ∧
    determineColumnTypeSchema (some "yes_no") = "Bool" ∧
    determineColumnTypeSchema none = "Text" ∧
    (∀ t : String, determineColumnTypeSchema (some t) = "Text" ∨
      (t, determineColumnTypeSchema (some t)) ∈
        [("number", "Numeric"), ("integer_number", "Int"),
         ("decimal_number", "Numeric"), ("date", "Date"), ("datetime", "DateTime"),
         ("yes_no", "Bool"), ("checkbox", "Bool")]) ∧
    repetableFieldColumnType "DateChamp" = "DateTime" ∧
    repetableFieldColumnType "DatetimeChamp" = "DateTime" ∧
    repetableFieldColumnType "DecimalNumberChamp" = "Numeric" ∧
    repetableFieldColumnType "IntegerNumberChamp" = "Int" ∧
    repetableFieldColumnType "CheckboxChamp" = "Bool" ∧
    repetableFieldColumnType "YesNoChamp" = "Bool" ∧
    (∀ tn : String, repetableFieldColumnType tn = "Text" ∨
      (tn, repetableFieldColumnType tn) ∈
        [("DateChamp", "DateTime"), ("DatetimeChamp", "DateTime"),
         ("DecimalNumberChamp", "Numeric"), ("IntegerNumberChamp", "Int"),
         ("CheckboxChamp", "Bool"), ("YesNoChamp", "Bool")]) := by
  refine ⟨by decide, by decide, by decide, by decide, by decide, by decide, by decide,
    by decide, ?_, by decide, by decide, by decide, by decide, by decide, by decide, ?_⟩
  · intro t
    have hall : ∀ p ∈ schemaTypeMapping, p.2 = "Text" ∨ p ∈
        [("number", "Numeric"), ("integer_number", "Int"),
         ("decimal_number", "Numeric"), ("date", "Date"), ("datetime", "DateTime"),
         ("yes_no", "Bool"), ("checkbox", "Bool")] := by decide
    unfold determineColumnTypeSchema
    dsimp only
    cases hf : schemaTypeMapping.find? (fun p => p.1 = t) with
    | none => left; rfl
    | some p =>
        have hmem := List.mem_of_find?_eq_some hf
        have hkey : p.1 = t := by
          have := List.find?_some hf
          simpa using this
        rcases hall p hmem with h | h
        · left; simpa using h
        · right
          have : (t, p.2) = p := by
            obtain ⟨p1, p2⟩ := p
            simp only at hkey ⊢
            rw [hkey]
          simpa [this] using h
  · intro tn
    by_cases k1 : tn = "DateChamp"
    · subst k1; right; decide
    by_cases k2 : tn = "DatetimeChamp"
    · subst k2; right; decide
    by_cases k3 : tn = "DecimalNumberChamp"
    · subst k3; right; decide
    by_cases k4 : tn = "IntegerNumberChamp"
    · subst k4; right; decide
    by_cases k5 : tn = "CheckboxChamp"
    · subst k5; right; decide
    by_cases k6 : tn = "YesNoChamp"
    · subst k6; right; decide
    left
    unfold repetableFieldColumnType
    split_ifs <;> simp_all

/-- C2 (code bug): on a schema whose repeatable block contains a
header-section child labelled `Attention`, `create_columns_from_schema`
registers the child's id among the problematic ids, yet still adds the
column `attention` to the repeatable-rows column set — the inner loop over a
repeatable block's children applies no header/explanation filter, contrary
to the function's own documented filtering and to the claimed invariant.
The champ and annotation column sets do exclude it. -/
theorem header_descriptor_column_in_repeatable_set :
    (createColumnsFromSchema exSchemaHeaderInBlock).map
        (fun r => (hasColumn r.repetableCols "attention",
                   hasColumn r.champCols "attention",
                   hasColumn r.annotationCols "attention"))
      = some (true, false, false) ∧
    "h1" ∈ problematicIdsFromSchema exSchemaHeaderInBlock := by
  decide

/-- C6 counterexample: in `detect_column_types_from_multiple_dossiers`, a
champ label observed with value `None` (inferred Text) in the first sampled
dossier and with an integer value (inferred Int) in the second keeps Text —
the first sample wins and the later, more specific type is discarded. -/
theorem champ_type_merge_is_first_wins :
    collectChampColumns [] [[exChampSampleNull], [exChampSampleInt]]
      = some [("x", "Text")] ∧
    determineColumnTypeValue (jgetD exChampSampleInt "value" J.null) = "Int" ∧
    ("Text" : String) ≠ "Int" := by
  decide

/-- C8 counterexample: a run whose only case-table batch write failed (so
zero case writes succeeded) but whose schema-based discovery succeeded is
reported as a success — the source returns
`total_success > 0 or schema_method_successful`. -/
theorem run_reports_success_with_zero_case_writes :
    processDemarcheResult true [([42], false)] = true ∧
    (runSets [([42], false)]).1 = [] := by
  decide

theorem addUnique_length_pos (s : List String) (x : String) :
    0 < (addUnique s x).length := by
  unfold addUnique
  split
  · rename_i h
    cases s with
    | nil => simp at h
    | cons a t => simp
  · simp

theorem addUnique_length_mono (s : List String) (x : String) :
    s.length ≤ (addUnique s x).length := by
  unfold addUnique
  split <;> simp

theorem recordStep_fst_pos (ok : Bool) (st : List String × List String) (n : Int) :
    0 < (runSetsRecordStep ok st n).1.length ↔
      0 < st.1.length ∨ (ok = true ∧ n ≠ 0) := by
  unfold runSetsRecordStep
  by_cases hn : n = 0 <;> by_cases hok : ok = true <;>
    simp [hn, hok, addUnique_length_pos]

theorem recordFold_fst_pos (ok : Bool) (ns : List Int) (st : List String × List String) :
    0 < ((ns.foldl (runSetsRecordStep ok) st).1.length) ↔
      0 < st.1.length ∨ (ok = true ∧ ∃ n ∈ ns, n ≠ 0) := by
  induction ns generalizing st with
  | nil => simp
  | cons n ns ih =>
      rw [List.foldl_cons, ih, recordStep_fst_pos]
      simp only [List.mem_cons]
      constructor
      · rintro ((h | ⟨hok, hn⟩) | ⟨hok, m, hm, hmne⟩)
        · exact Or.inl h
        · exact Or.inr ⟨hok, n, Or.inl rfl, hn⟩
        · exact Or.inr ⟨hok, m, Or.inr hm, hmne⟩
      · rintro (h | ⟨hok, m, hm | hm, hmne⟩)
        · exact Or.inl (Or.inl h)
        · exact Or.inl (Or.inr ⟨hok, hm ▸ hmne⟩)
        · exact Or.inr ⟨hok, m, hm, hmne⟩

theorem batchFold_fst_pos (batches : List (List Int × Bool))
    (st : List String × List String) :
    0 < ((batches.foldl runSetsBatchStep st).1.length) ↔
      0 < st.1.length ∨ ∃ b ∈ batches, b.2 = true ∧ ∃ n ∈ b.1, n ≠ 0 := by
  induction batches generalizing st with
  | nil => simp
  | cons b bs ih =>
      rw [List.foldl_cons, ih]
      unfold runSetsBatchStep
      rw [recordFold_fst_pos]
      simp only [List.mem_cons]
      constructor
      · rintro ((h | h) | ⟨c, hc, hok, m, hm, hmne⟩)
        · exact Or.inl h
        · exact Or.inr ⟨b, Or.inl rfl, h⟩
        · exact Or.inr ⟨c, Or.inr hc, hok, m, hm, hmne⟩
      · rintro (h | ⟨c, hc | hc, hok, m, hm, hmne⟩)
        · exact Or.inl (Or.inl h)
        · exact Or.inl (Or.inr (hc ▸ ⟨hok, m, hm, hmne⟩))
        · exact Or.inr ⟨c, hc, hok, m, hm, hmne⟩

theorem find?_setType_self (acc : List (String × String)) (k t : String) (v : String × String)
    (h : acc.find? (fun c => c.1 = k) = some v) :
    (setType acc k t).find? (fun c => c.1 = k) = some (k, t) := by
  induction acc with
  | nil => simp at h
  | cons a tl ih =>
      unfold setType at ih ⊢
      rw [List.map_cons]
      by_cases ha : a.1 = k
      · simp [ha]
      · rw [if_neg ha, List.find?_cons_of_neg _ (by simpa using ha)]
        rw [List.find?_cons_of_neg _ (by simpa using ha)] at h
        exact ih h

/-- C6 amended: the two sampling merges follow different policies.  In the
repeatable-columns merge (`detect_repetable_columns_from_multiple_dossiers`)
a stored Text is replaced by any later non-Text type and a stored Int by a
later Numeric or DateTime, and every other conflict keeps the earlier type;
in the champ/annotation fallback merge
(`detect_column_types_from_multiple_dossiers`) a bound column id is never
changed by any later sample — first-wins, not last-specific-wins. -/
theorem sample_merge_policies :
    (∀ (pids : List String) (acc : List (String × String)) (champ : J)
        (acc' : List (String × String)) (k : String) (v : String × String),
        champColsStep pids acc champ = some acc' →
        acc.find? (fun c => c.1 = k) = some v →
        acc'.find? (fun c => c.1 = k) = some v) ∧
    (∀ (acc : List (String × String)) (cid t : String),
        lowerAscii cid ∉ repBlocklist →
        acc.find? (fun c => c.1 = cid) = some (cid, "Text") → t ≠ "Text" →
        (mergeRepStep acc (cid, t)).find? (fun c => c.1 = cid) = some (cid, t)) ∧
    (∀ (acc : List (String × String)) (cid t : String),
        lowerAscii cid ∉ repBlocklist →
        acc.find? (fun c => c.1 = cid) = some (cid, "Int") →
        (t = "Numeric" ∨ t = "DateTime") →
        (mergeRepStep acc (cid, t)).find? (fun c => c.1 = cid) = some (cid, t)) ∧
    (∀ (acc : List (String × String)) (cid te t : String),
        acc.find? (fun c => c.1 = cid) = some (cid, te) →
        ¬(te = "Text" ∧ t ≠ "Text") →
        ¬(te = "Int" ∧ (t = "Numeric" ∨ t = "DateTime")) →
        (mergeRepStep acc (cid, t)).find? (fun c => c.1 = cid) = some (cid, te)) := by
  refine ⟨?_, ?_, ?_, ?_⟩
  · intro pids acc champ acc' k v h hf
    unfold champColsStep at h
    split at h
    · exact absurd h (by simp)
    · split at h
      · rw [Option.some.injEq] at h
        subst h
        exact hf
      · split at h
        · rw [Option.some.injEq] at h
          subst h
          exact hf
        · split at h
          · exact absurd h (by simp)
          · split at h
            · exact absurd h (by simp)
            · split at h
              · rw [Option.some.injEq] at h
                subst h
                exact hf
              · rw [Option.some.injEq] at h
                subst h
                rw [List.find?_append, hf]
                rfl
  · intro acc cid t hbl hf ht
    unfold mergeRepStep
    dsimp only
    rw [if_neg hbl, hf]
    dsimp only
    rw [if_pos ⟨rfl, ht⟩]
    exact find?_setType_self acc cid t _ hf
  · intro acc cid t hbl hf ht
    unfold mergeRepStep
    dsimp only
    rw [if_neg hbl, hf]
    dsimp only
    rw [if_neg (by simp), if_pos ⟨rfl, ht⟩]
    exact find?_setType_self acc cid t _ hf
  · intro acc cid te t hf hkeep1 hkeep2
    unfold mergeRepStep
    split
    · exact hf
    · dsimp only
      rw [hf]
      dsimp only
      rw [if_neg hkeep1, if_neg hkeep2]
      exact hf

theorem mem_of_head?_eq {l : List Char} {a : Char} (h : l.head? = some a) : a ∈ l := by
  cases l with
  | nil => simp at h
  | cons b t =>
      simp at h
      simp [h]

theorem mem_of_getLast?_eq {l : List Char} {a : Char} (h : l.getLast? = some a) : a ∈ l := by
  have h2 : l.reverse.head? = some a := by rw [List.head?_reverse]; exact h
  have h3 := mem_of_head?_eq h2
  simpa using h3

theorem squash_mem {p : Char → Bool} {rep : Char} {b : Bool} {l : List Char} {c : Char}
    (h : c ∈ squash p rep b l) : c ∈ l ∨ c = rep := by
  induction l generalizing b with
  | nil => simp [squash] at h
  | cons a t ih =>
      unfold squash at h
      by_cases hp : p a
      · rw [if_pos hp] at h
        by_cases hb : b
        · rw [if_pos hb] at h
          rcases ih h with h2 | h2
          · exact Or.inl (List.mem_cons_of_mem a h2)
          · exact Or.inr h2
        · rw [if_neg hb] at h
          rcases List.mem_cons.mp h with h2 | h2
          · exact Or.inr h2
          · rcases ih h2 with h3 | h3
            · exact Or.inl (List.mem_cons_of_mem a h3)
            · exact Or.inr h3
      · rw [if_neg hp] at h
        rcases List.mem_cons.mp h with h2 | h2
        · exact Or.inl (h2 ▸ List.mem_cons_self a t)
        · rcases ih h2 with h3 | h3
          · exact Or.inl (List.mem_cons_of_mem a h3)
          · exact Or.inr h3

theorem squash_eq_self_of_not_mem {p : Char → Bool} {rep : Char} {l : List Char}
    (h : ∀ c ∈ l, p c = false) (b : Bool) : squash p rep b l = l := by
  induction l generalizing b with
  | nil => rfl
  | cons a t ih =>
      unfold squash
      rw [if_neg (by simp [h a (List.mem_cons_self a t)])]
      rw [ih (fun c hc => h c (List.mem_cons_of_mem a hc))]

theorem noTwoAdjacent_tail {p : Char → Bool} {a : Char} {t : List Char}
    (h : noTwoAdjacent p (a :: t) = true) : noTwoAdjacent p t = true := by
  cases t with
  | nil => rfl
  | cons b t2 =>
      unfold noTwoAdjacent at h
      exact (Bool.and_eq_true_iff.mp h).2

theorem noTwoAdjacent_pair {p : Char → Bool} {a b : Char} {t : List Char}
    (h : noTwoAdjacent p (a :: b :: t) = true) : (p a && p b) = false := by
  unfold noTwoAdjacent at h
  have h1 := (Bool.and_eq_true_iff.mp h).1
  cases hpq : (p a && p b)
  · rfl
  · rw [hpq] at h1
    exact absurd h1 (by decide)

theorem squash_true_eq_false {p : Char → Bool} {rep : Char} {l : List Char}
    (h : ∀ c, l.head? = some c → p c = false) :
    squash p rep true l = squash p rep false l := by
  cases l with
  | nil => rfl
  | cons d ds =>
      have hd := h d rfl
      unfold squash
      rw [if_neg (by simp [hd]), if_neg (by simp [hd])]

theorem squash_eq_map_of_noTwoAdjacent {p : Char → Bool} {rep : Char} {l : List Char}
    (h : noTwoAdjacent p l = true) :
    squash p rep false l = l.map (fun c => if p c then rep else c) := by
  induction l with
  | nil => rfl
  | cons a t ih =>
      have ht := noTwoAdjacent_tail h
      unfold squash
      by_cases hp : p a
      · rw [if_pos hp, List.map_cons, if_pos hp]
        rw [if_neg (by decide)]
        cases t with
        | nil => rfl
        | cons d ds =>
            have hd : p d = false := by
              have h2 := noTwoAdjacent_pair h
              rw [hp] at h2
              simpa using h2
            rw [squash_true_eq_false (fun c hc => by
              simp only [List.head?_cons, Option.some.injEq] at hc
              exact hc ▸ hd)]
            rw [ih ht]
      · rw [if_neg hp, List.map_cons, if_neg hp]
        rw [ih ht]

theorem dropWhile_eq_self_of_head {p : Char → Bool} {l : List Char}
    (h : ∀ c, l.head? = some c → p c = false) : l.dropWhile p = l := by
  cases l with
  | nil => rfl
  | cons a t =>
      rw [List.dropWhile_cons, if_neg]
      simp [h a rfl]

theorem stripBoth_eq_self {p : Char → Bool} {l : List Char}
    (hh : ∀ c, l.head? = some c → p c = false)
    (hl : ∀ c, l.getLast? = some c → p c = false) : stripBoth p l = l := by
  unfold stripBoth dropLeading dropTrailing
  rw [dropWhile_eq_self_of_head hh]
  rw [dropWhile_eq_self_of_head (fun c hc => hl c (by rwa [List.head?_reverse] at hc))]
  exact List.reverse_reverse l

theorem stripBoth_mem {p : Char → Bool} {l : List Char} {c : Char}
    (h : c ∈ stripBoth p l) : c ∈ l := by
  unfold stripBoth dropLeading dropTrailing at h
  rw [List.mem_reverse] at h
  have h2 := (List.dropWhile_sublist p).subset h
  rw [List.mem_reverse] at h2
  exact (List.dropWhile_sublist p).subset h2

theorem map_eq_self_of {f : Char → Char} {l : List Char} (h : ∀ c ∈ l, f c = c) :
    l.map f = l := by
  induction l with
  | nil => rfl
  | cons a t ih =>
      rw [List.map_cons, h a (List.mem_cons_self a t),
        ih (fun c hc => h c (List.mem_cons_of_mem a hc))]

theorem safe_not_ws {c : Char} (h : isSafeChar c = true) : isPyWs c = false := by
  unfold isPyWs
  rw [decide_eq_false_iff_not]
  rintro (rfl | rfl | rfl | rfl | rfl | rfl) <;> exact absurd h (by decide)

theorem safe_alpha_lower {c : Char} (hs : isSafeChar c = true) (ha : pyIsAlpha c = true) :
    isLowerAlpha c = true := by
  unfold isSafeChar at hs
  unfold pyIsAlpha at ha
  unfold isLowerAlpha
  rw [decide_eq_true_eq] at hs ha ⊢
  rcases hs with h | h | h
  · exact h
  · rcases ha with h2 | h2
    · exact absurd (le_trans h2.1 h.2) (by decide)
    · exact absurd (le_trans h2.1 h.2) (by decide)
  · subst h
    rcases ha with h2 | h2
    · exact absurd h2.1 (by decide)
    · exact absurd h2.2 (by decide)

theorem hex_safe {c : Char} (h : isHexLowerChar c = true) : isSafeChar c = true := by
  unfold isHexLowerChar at h
  unfold isSafeChar
  rw [decide_eq_true_eq] at h ⊢
  rcases h with h | h
  · exact Or.inl ⟨h.1, le_trans h.2 (by decide)⟩
  · exact Or.inr (Or.inl h)

theorem alpha_not_uscore {c : Char} (h : pyIsAlpha c = true) : decide (c = '_') = false := by
  rw [decide_eq_false_iff_not]
  rintro rfl
  exact absurd h (by decide)

theorem normStem_safe (uni : UniModel) (name : List Char) :
    ∀ c ∈ normStem uni name, isSafeChar c = true := by
  intro c hc
  unfold normStem at hc
  have h1 := stripBoth_mem hc
  rcases squash_mem h1 with h2 | h2
  · rw [List.mem_map] at h2
    obtain ⟨c0, _, hco⟩ := h2
    by_cases hs : isSafeChar c0
    · rw [if_pos hs] at hco
      exact hco ▸ hs
    · rw [if_neg hs] at hco
      rw [← hco]
      decide
  · rw [h2]
    decide

theorem normPrefixed_facts (uni : UniModel) (name : List Char) :
    normPrefixed uni name ≠ [] ∧ (∀ c ∈ normPrefixed uni name, isSafeChar c = true) ∧
    isLowerAlpha ((normPrefixed uni name).headD '_') = true := by
  unfold normPrefixed
  split
  · refine ⟨by simp, ?_, ?_⟩
    · intro c hc
      rw [List.mem_append] at hc
      rcases hc with hc | hc
      · have hc2 : c ∈ ['c', 'o', 'l', '_'] := hc
        simp only [List.mem_cons, List.not_mem_nil, or_false] at hc2
        rcases hc2 with rfl | rfl | rfl | rfl <;> decide
      · exact normStem_safe uni name c hc
    · rfl
  · rename_i hcond
    rw [not_or, not_not] at hcond
    obtain ⟨hnem, halpha⟩ := hcond
    have hne2 : normStem uni name ≠ [] := by
      intro h0
      rw [h0] at hnem
      simp at hnem
    refine ⟨hne2, normStem_safe uni name, ?_⟩
    have hmem : (normStem uni name).headD '_' ∈ normStem uni name := by
      cases hstem : normStem uni name with
      | nil => exact absurd hstem hne2
      | cons a t => simp
    exact safe_alpha_lower (normStem_safe uni name _ hmem) halpha

/-- C10: for every input (the empty falsy input included) at the default
`max_length = 50`, the grist column-name normalizer returns a non-empty
identifier of length at most 50 made of characters from `[a-z0-9_]` whose
first character is a lowercase ASCII letter — for any behaviour of the
accent-stripping and lowercasing library primitives, provided the md5
suffix behaves as `hexdigest()[:6]` (6 lowercase hex characters). -/
theorem normalize_output_storage_safe (uni : UniModel)
    (hlen6 : ∀ s : List Char, (uni.md5hex6 s).length = 6)
    (hhex : ∀ s : List Char, ∀ c ∈ uni.md5hex6 s, isHexLowerChar c = true)
    (name : List Char) :
    pyNormalizeColumnName uni 50 name ≠ [] ∧
    (pyNormalizeColumnName uni 50 name).length ≤ 50 ∧
    (∀ c ∈ pyNormalizeColumnName uni 50 name, isSafeChar c = true) ∧
    isLowerAlpha ((pyNormalizeColumnName uni 50 name).headD '_') = true := by
  obtain ⟨hne, hsafe, hhead⟩ := normPrefixed_facts uni name
  unfold pyNormalizeColumnName
  by_cases hem : name.isEmpty
  · rw [if_pos hem]
    exact ⟨by decide, by decide, by decide, by decide⟩
  · rw [if_neg hem]
    split
    · rename_i hlong
      refine ⟨by simp, ?_, ?_, ?_⟩
      · rw [List.length_append, List.length_take, List.length_cons, hlen6]
        omega
      · intro c hc
        rw [List.mem_append] at hc
        rcases hc with hc | hc
        · exact hsafe c (List.mem_of_mem_take hc)
        · rcases List.mem_cons.mp hc with rfl | hc2
          · decide
          · exact hex_safe (hhex _ c hc2)
      · cases hnp : normPrefixed uni name with
        | nil => exact absurd hnp hne
        | cons a t =>
            rw [hnp] at hhead
            have h50 : (50 : Nat) - 7 = 42 + 1 := by decide
            rw [h50, List.take_succ_cons]
            simpa using hhead
    · rename_i hshort
      exact ⟨hne, Nat.le_of_not_lt hshort, hsafe, hhead⟩

/-- C9 amended: the grist column-name normalizer is a true fixed point on
every label already in canonical form — non-empty, at most 50 characters
from `[a-z0-9_]`, starting with a letter, with no two adjacent underscores
and no trailing underscore, and untouched by the accent-stripping and
lowercasing primitives.  Not every output of the normalizer is canonical
(`normalize("!") = "col_"` ends in an underscore, and hash-truncated outputs
can contain a double underscore), so idempotence on the whole image fails —
see the counterexample. -/
theorem normalize_canonical_fixed_point (uni : UniModel) (y : List Char)
    (hsa : uni.stripAccents y = y) (hlo : uni.lower y = y)
    (hne : y ≠ []) (hsafe : ∀ c ∈ y, isSafeChar c = true)
    (hhead : pyIsAlpha (y.headD '_') = true)
    (hadj : noTwoAdjacent (fun c => c = '_') y = true)
    (hlast : y.getLast? ≠ some '_')
    (hlen : y.length ≤ 50) :
    pyNormalizeColumnName uni 50 y = y := by
  have hyem : y.isEmpty = false := by
    cases y with
    | nil => exact absurd rfl hne
    | cons a t => rfl
  have hstem : normStem uni y = y := by
    unfold normStem
    rw [stripBoth_eq_self (fun c hc => safe_not_ws (hsafe c (mem_of_head?_eq hc)))
      (fun c hc => safe_not_ws (hsafe c (mem_of_getLast?_eq hc)))]
    rw [squash_eq_self_of_not_mem (fun c hc => safe_not_ws (hsafe c hc))]
    rw [hsa, hlo]
    rw [map_eq_self_of (fun c hc => by rw [if_pos (hsafe c hc)])]
    rw [squash_eq_map_of_noTwoAdjacent hadj]
    rw [map_eq_self_of (fun c _ => by
      by_cases h : c = '_'
      · simp [h]
      · simp [h])]
    apply stripBoth_eq_self
    · intro c hc
      have hcd : y.headD '_' = c := by
        cases y with
        | nil => simp at hc
        | cons a t =>
            simp at hc
            simp [hc]
      exact alpha_not_uscore (hcd ▸ hhead)
    · intro c hc
      rw [decide_eq_false_iff_not]
      rintro rfl
      exact hlast hc
  have hpref : normPrefixed uni y = y := by
    unfold normPrefixed
    rw [hstem]
    rw [if_neg]
    rintro (h | h)
    · rw [hyem] at h
      exact Bool.false_ne_true h
    · cases y with
      | nil => exact absurd rfl hne
      | cons a t => exact h hhead
  unfold pyNormalizeColumnName
  rw [if_neg (by simp [hyem]), hpref, if_neg (Nat.not_lt.mpr hlen)]

/-- C9 counterexample: the label `!` normalizes to `col_`, which normalizes
further to `col` — the normalizer is not idempotent on its own image, so
`normalize(normalize(label)) = normalize(label)` fails for `label = "!"`. -/
theorem normalize_not_idempotent_on_image :
    normalizeA "!" = "col_" ∧ normalizeA (normalizeA "!") = "col" ∧
    normalizeA (normalizeA "!") ≠ normalizeA "!" := by
  decide

/-- Witness for the canonical-fixed-point theorem at the concrete canonical
label `nom_du_projet` with the ASCII primitives. -/
theorem normalize_canonical_fixed_point_witness :
    pyNormalizeColumnName asciiUni 50 "nom_du_projet".toList = "nom_du_projet".toList := by
  exact normalize_canonical_fixed_point asciiUni "nom_du_projet".toList rfl (by decide)
    (by decide) (by decide) (by decide) (by decide) (by decide) (by decide)

/-- Witness for the storage-safety theorem at the concrete label
`Nom du Projet!` with the ASCII primitives. -/
theorem normalize_output_storage_safe_witness :
    pyNormalizeColumnName asciiUni 50 "Nom du Projet!".toList ≠ [] ∧
    (pyNormalizeColumnName asciiUni 50 "Nom du Projet!".toList).length ≤ 50 ∧
    (∀ c ∈ pyNormalizeColumnName asciiUni 50 "Nom du Projet!".toList, isSafeChar c = true) ∧
    isLowerAlpha ((pyNormalizeColumnName asciiUni 50 "Nom du Projet!".toList).headD '_') = true := by
  exact normalize_output_storage_safe asciiUni (fun s => rfl)
    (fun s c hc => by
      have hc2 : c ∈ ['0', '0', '0', '0', '0', '0'] := hc
      simp only [List.mem_cons, List.not_mem_nil, or_false, or_self] at hc2
      rw [hc2]
      decide)
    "Nom du Projet!".toList

/-- Witness for the merge-policy theorem: a stored Text upgraded by Int, a
stored Int upgraded by Numeric, a stored Numeric kept against Int, and a
bound champ label left unchanged by a later sample. -/
theorem sample_merge_policies_witness :
    (mergeRepStep [("x", "Text")] ("x", "Int")).find? (fun c => c.1 = "x")
      = some ("x", "Int") ∧
    (mergeRepStep [("x", "Int")] ("x", "Numeric")).find? (fun c => c.1 = "x")
      = some ("x", "Numeric") ∧
    (mergeRepStep [("x", "Numeric")] ("x", "Int")).find? (fun c => c.1 = "x")
      = some ("x", "Numeric") ∧
    ∃ acc2, champColsStep [] [("x", "Text")] exChampSampleInt = some acc2 ∧
      acc2.find? (fun c => c.1 = "x") = some ("x", "Text") := by
  refine ⟨sample_merge_policies.2.1 [("x", "Text")] "x" "Int" (by decide) (by decide)
      (by decide),
    sample_merge_policies.2.2.1 [("x", "Int")] "x" "Numeric" (by decide) (by decide)
      (Or.inl rfl),
    sample_merge_policies.2.2.2 [("x", "Numeric")] "x" "Numeric" "Int" (by decide)
      (by decide) (by decide),
    ⟨[("x", "Text")], by decide,
      sample_merge_policies.1 [] [("x", "Text")] exChampSampleInt [("x", "Text")]
        "x" ("x", "Text") (by decide) (by decide)⟩⟩

/-- C4 counterexample: the schema-discovery-time normalizer
(`grist_processor_working_all.normalize_column_name`) and the
repeatable-row-writing normalizer (`repetable_processor.normalize_column_name`)
disagree on punctuation (replaced by `_` vs deleted), on labels not starting
with a letter (`col_` vs `c_` prefix), on repeated underscores (collapsed vs
kept), on leading whitespace (stripped vs turned into `_`), and on labels
longer than 40 characters (kept up to 50 vs truncated at 40). -/
theorem normalizers_disagree :
    normalizeA "a-b" = "a_b" ∧ normalizeRepA "a-b" = some "ab" ∧
    normalizeRepA "a-b" ≠ some (normalizeA "a-b") ∧
    normalizeRepA "9abc" ≠ some (normalizeA "9abc") ∧
    normalizeRepA "a__b" ≠ some (normalizeA "a__b") ∧
    normalizeRepA " a" ≠ some (normalizeA " a") ∧
    normalizeRepA "aaaaaaaaaaaaaaaaaaaaaaaaaaaaaaaaaaaaaaaaaaaaa"
      ≠ some (normalizeA "aaaaaaaaaaaaaaaaaaaaaaaaaaaaaaaaaaaaaaaaaaaaa") := by
  decide

theorem lower_safe {c : Char} (h : isLowerAlpha c = true) : isSafeChar c = true := by
  unfold isLowerAlpha at h
  unfold isSafeChar
  rw [decide_eq_true_eq] at h ⊢
  exact Or.inl h

theorem lower_alpha {c : Char} (h : isLowerAlpha c = true) : pyIsAlpha c = true := by
  unfold isLowerAlpha at h
  unfold pyIsAlpha
  rw [decide_eq_true_eq] at h ⊢
  exact Or.inl h

/-- On the plain-label alphabet, a whitespace character can only be the
space. -/
theorem plain_ws_is_space {c : Char}
    (hp : (isLowerAlpha c || c.isDigit || sepChar c) = true)
    (hw : isPyWs c = true) : c = ' ' := by
  unfold isPyWs at hw
  rw [decide_eq_true_eq] at hw
  rcases hw with rfl | rfl | rfl | rfl | rfl | rfl
  · rfl
  all_goals exact absurd hp (by decide)

/-- A plain character that is not a separator is in `[a-z0-9]`, hence safe. -/
theorem plain_notsep_safe {c : Char}
    (hp : (isLowerAlpha c || c.isDigit || sepChar c) = true)
    (hs : sepChar c = false) : isSafeChar c = true := by
  rcases Bool.or_eq_true_iff.mp hp with h | h
  · rcases Bool.or_eq_true_iff.mp h with h2 | h2
    · exact lower_safe h2
    · unfold isSafeChar
      rw [decide_eq_true_eq]
      exact Or.inr (Or.inl (by
        have := h2
        unfold Char.isDigit at this
        exact Bool.and_eq_true_iff.mp this |>.imp decide_eq_true_eq.mp decide_eq_true_eq.mp))
  · rw [h] at hs
    exact absurd hs (by decide)

/-- ASCII lowercasing fixes every plain character. -/
theorem plain_lower_id {c : Char}
    (hp : (isLowerAlpha c || c.isDigit || sepChar c) = true) :
    asciiLowerChar c = c := by
  unfold asciiLowerChar
  rw [if_neg]
  rintro ⟨h1, h2⟩
  rcases Bool.or_eq_true_iff.mp hp with h | h
  · rcases Bool.or_eq_true_iff.mp h with h3 | h3
    · unfold isLowerAlpha at h3
      rw [decide_eq_true_eq] at h3
      exact absurd (le_trans h3.1 h2) (by decide)
    · unfold Char.isDigit at h3
      have h4 := Bool.and_eq_true_iff.mp h3
      have h5 : c ≤ '9' := decide_eq_true_eq.mp h4.2
      exact absurd (le_trans h1 h5) (by decide)
  · unfold sepChar at h
    rw [decide_eq_true_eq] at h
    rcases h with rfl | rfl
    · exact absurd h1 (by decide)
    · exact absurd h2 (by decide)

/-- A plain character is a word character or whitespace, so the
repeatable-processor filter keeps it. -/
theorem plain_word_or_ws {c : Char}
    (hp : (isLowerAlpha c || c.isDigit || sepChar c) = true) :
    decide (isWordChar c = true ∨ isPyWs c = true) = true := by
  rw [decide_eq_true_eq]
  rcases Bool.or_eq_true_iff.mp hp with h | h
  · rcases Bool.or_eq_true_iff.mp h with h2 | h2
    · left
      unfold isLowerAlpha at h2
      unfold isWordChar
      rw [decide_eq_true_eq] at h2 ⊢
      exact Or.inl h2
    · left
      unfold Char.isDigit at h2
      have h3 := Bool.and_eq_true_iff.mp h2
      unfold isWordChar
      rw [decide_eq_true_eq]
      exact Or.inr (Or.inr (Or.inl ⟨decide_eq_true_eq.mp h3.1, decide_eq_true_eq.mp h3.2⟩))
  · unfold sepChar at h
    rw [decide_eq_true_eq] at h
    rcases h with rfl | rfl
    · right
      decide
    · left
      decide

/-- A plain character other than the space is in `[a-z0-9_]`. -/
theorem plain_notspace_safe {c : Char}
    (hp : (isLowerAlpha c || c.isDigit || sepChar c) = true)
    (hsp : c ≠ ' ') : isSafeChar c = true := by
  rcases Bool.or_eq_true_iff.mp hp with h | h
  · rcases Bool.or_eq_true_iff.mp h with h2 | h2
    · exact lower_safe h2
    · unfold Char.isDigit at h2
      have h3 := Bool.and_eq_true_iff.mp h2
      unfold isSafeChar
      rw [decide_eq_true_eq]
      exact Or.inr (Or.inl ⟨decide_eq_true_eq.mp h3.1, decide_eq_true_eq.mp h3.2⟩)
  · unfold sepChar at h
    rw [decide_eq_true_eq] at h
    rcases h with rfl | rfl
    · exact absurd rfl hsp
    · decide

theorem noTwoAdjacent_of_imp {p q : Char → Bool} {l : List Char}
    (himp : ∀ c ∈ l, p c = true → q c = true)
    (h : noTwoAdjacent q l = true) : noTwoAdjacent p l = true := by
  induction l with
  | nil => rfl
  | cons a t ih =>
      cases t with
      | nil => rfl
      | cons b t2 =>
          unfold noTwoAdjacent
          rw [Bool.and_eq_true_iff]
          refine ⟨?_, ih (fun c hc hpc => himp c (List.mem_cons_of_mem a hc) hpc)
            (noTwoAdjacent_tail h)⟩
          cases hpa : p a
          · simp
          · cases hpb : p b
            · simp
            · have hqa := himp a (List.mem_cons_self a _) hpa
              have hqb := himp b (List.mem_cons_of_mem a (List.mem_cons_self b _)) hpb
              have hpair := noTwoAdjacent_pair h
              rw [hqa, hqb] at hpair
              exact absurd hpair (by decide)

theorem noTwoAdjacent_map {p q : Char → Bool} {f : Char → Char} {l : List Char}
    (himp : ∀ c ∈ l, p (f c) = true → q c = true)
    (h : noTwoAdjacent q l = true) : noTwoAdjacent p (l.map f) = true := by
  induction l with
  | nil => rfl
  | cons a t ih =>
      cases t with
      | nil => rfl
      | cons b t2 =>
          rw [List.map_cons, List.map_cons]
          unfold noTwoAdjacent
          rw [Bool.and_eq_true_iff]
          constructor
          · cases hpa : p (f a)
            · simp
            · cases hpb : p (f b)
              · simp
              · have hqa := himp a (List.mem_cons_self a _) hpa
                have hqb := himp b (List.mem_cons_of_mem a (List.mem_cons_self b _)) hpb
                have hpair := noTwoAdjacent_pair h
                rw [hqa, hqb] at hpair
                exact absurd hpair (by decide)
          · have := ih (fun c hc hpc => himp c (List.mem_cons_of_mem a hc) hpc)
              (noTwoAdjacent_tail h)
            rw [List.map_cons] at this
            exact this

/-- C4 amended: the two normalizers agree on every separator-disciplined
plain label — non-empty, at most 40 characters from lowercase letters,
digits, underscores and spaces, starting with a letter, with no two adjacent
separators and no trailing separator — and both then simply turn each space
into an underscore; outside this common domain they differ as the
counterexample records (punctuation, leading non-letter, repeated
underscores, outer whitespace, length over 40). -/
theorem normalizers_agree_on_plain_labels (l : List Char)
    (hne : l ≠ [])
    (hchars : ∀ c ∈ l, (isLowerAlpha c || c.isDigit || sepChar c) = true)
    (hhead : isLowerAlpha (l.headD '_') = true)
    (hadj : noTwoAdjacent sepChar l = true)
    (hlast : ∀ c, l.getLast? = some c → sepChar c = false)
    (hlen : l.length ≤ 40) :
    pyNormalizeColumnNameRep asciiUni 40 l = some (pyNormalizeColumnName asciiUni 50 l) ∧
    pyNormalizeColumnName asciiUni 50 l = l.map spaceToUscore := by
  have hheadc : ∀ c, l.head? = some c → isLowerAlpha c = true := by
    intro c hc
    have : l.headD '_' = c := by
      cases l with
      | nil => simp at hc
      | cons a t =>
          simp at hc
          simp [hc]
    exact this ▸ hhead
  have hwsadj : noTwoAdjacent isPyWs l = true := by
    refine noTwoAdjacent_of_imp (fun c hc hw => ?_) hadj
    rw [plain_ws_is_space (hchars c hc) hw]
    decide
  have hs2u_sep : ∀ c ∈ l, decide (spaceToUscore c = '_') = true → sepChar c = true := by
    intro c _ h
    rw [decide_eq_true_eq] at h
    unfold spaceToUscore at h
    unfold sepChar
    rw [decide_eq_true_eq]
    by_cases hsp : c = ' '
    · exact Or.inl hsp
    · rw [if_neg hsp] at h
      exact Or.inr h
  -- the grist pipeline reduces to mapping space-to-underscore
  have hstem : normStem asciiUni l = l.map spaceToUscore := by
    have e1 : stripBoth isPyWs l = l :=
      stripBoth_eq_self
        (fun c hc => safe_not_ws (lower_safe (hheadc c hc)))
        (fun c hc => safe_not_ws
          (plain_notsep_safe (hchars c (mem_of_getLast?_eq hc)) (hlast c hc)))
    have e2 : squash isPyWs ' ' false l = l :=
      (squash_eq_map_of_noTwoAdjacent hwsadj).trans
        (map_eq_self_of (fun c hc => by
          by_cases hw : isPyWs c
          · rw [if_pos hw, plain_ws_is_space (hchars c hc) hw]
          · rw [if_neg hw]))
    have e3 : asciiUni.stripAccents l = l := rfl
    have e4 : asciiUni.lower l = l :=
      map_eq_self_of (fun c hc => plain_lower_id (hchars c hc))
    have e5 : l.map (fun c => if isSafeChar c then c else '_') = l.map spaceToUscore :=
      List.map_congr_left (fun c hc => by
        by_cases hsp : c = ' '
        · subst hsp
          rw [if_neg (by decide)]
          rfl
        · rw [if_pos (plain_notspace_safe (hchars c hc) hsp)]
          unfold spaceToUscore
          rw [if_neg hsp])
    have e6 : squash (fun c => c = '_') '_' false (l.map spaceToUscore)
        = l.map spaceToUscore :=
      (squash_eq_map_of_noTwoAdjacent (noTwoAdjacent_map hs2u_sep hadj)).trans
        (map_eq_self_of (fun c _ => by
          by_cases h : c = '_'
          · simp [h]
          · simp [h]))
    unfold normStem
    rw [e1, e2, e3, e4, e5, e6]
    apply stripBoth_eq_self
    · intro c hc
      rw [List.head?_map] at hc
      cases hl : l.head? with
      | none => rw [hl] at hc; simp at hc
      | some a =>
          rw [hl] at hc
          simp at hc
          have ha := hheadc a hl
          have hasp : a ≠ ' ' := by
            intro h0
            rw [h0] at ha
            exact absurd ha (by decide)
          rw [← hc]
          unfold spaceToUscore
          rw [if_neg hasp]
          exact alpha_not_uscore (lower_alpha ha)
    · intro c hc
      rw [List.getLast?_map] at hc
      cases hl : l.getLast? with
      | none => rw [hl] at hc; simp at hc
      | some a =>
          rw [hl] at hc
          simp at hc
          have ha := hlast a hl
          have hasp : a ≠ ' ' := by
            intro h0
            rw [h0] at ha
            exact absurd ha (by decide)
          rw [← hc]
          unfold spaceToUscore
          rw [if_neg hasp]
          rw [decide_eq_false_iff_not]
          intro h0
          rw [h0] at ha
          exact absurd ha (by decide)
  have hmapne : l.map spaceToUscore ≠ [] := by
    intro h0
    rw [List.map_eq_nil_iff] at h0
    exact hne h0
  have hmaphead : pyIsAlpha ((l.map spaceToUscore).headD '_') = true := by
    cases l with
    | nil => exact absurd rfl hne
    | cons a t =>
        have ha := hheadc a rfl
        have hasp : a ≠ ' ' := by
          intro h0
          rw [h0] at ha
          exact absurd ha (by decide)
        rw [List.map_cons]
        show pyIsAlpha (spaceToUscore a) = true
        unfold spaceToUscore
        rw [if_neg hasp]
        exact lower_alpha ha
  have hpref : normPrefixed asciiUni l = l.map spaceToUscore := by
    unfold normPrefixed
    rw [hstem]
    rw [if_neg]
    rintro (h | h)
    · rw [List.isEmpty_iff] at h
      exact hmapne h
    · exact h hmaphead
  have hgrist : pyNormalizeColumnName asciiUni 50 l = l.map spaceToUscore := by
    unfold pyNormalizeColumnName
    rw [if_neg (by
      rw [List.isEmpty_iff]
      exact hne)]
    rw [hpref, if_neg]
    rw [List.length_map]
    omega
  refine ⟨?_, hgrist⟩
  -- the repeatable-processor pipeline reduces to the same map
  rw [hgrist]
  have e7 : (asciiUni.stripAccents l).filter (fun c => isWordChar c ∨ isPyWs c) = l :=
    List.filter_eq_self.mpr (fun c hc => plain_word_or_ws (hchars c hc))
  have e8 : squash isPyWs '_' false l = l.map spaceToUscore :=
    (squash_eq_map_of_noTwoAdjacent hwsadj).trans
      (List.map_congr_left (fun c hc => by
        by_cases hw : isPyWs c
        · rw [if_pos hw, plain_ws_is_space (hchars c hc) hw]
          rfl
        · rw [if_neg hw]
          unfold spaceToUscore
          rw [if_neg (fun h0 => by
            rw [h0] at hw
            exact absurd hw (by decide))]))
  have hlow2 : asciiUni.lower (l.map spaceToUscore) = l.map spaceToUscore := by
    refine map_eq_self_of (fun c hc => ?_)
    rw [List.mem_map] at hc
    obtain ⟨c0, hc0, hco⟩ := hc
    rw [← hco]
    by_cases hsp : c0 = ' '
    · subst hsp
      show asciiLowerChar (spaceToUscore ' ') = spaceToUscore ' '
      decide
    · unfold spaceToUscore
      rw [if_neg hsp]
      exact plain_lower_id (hchars c0 hc0)
  unfold pyNormalizeColumnNameRep
  rw [if_neg (by
    rw [List.isEmpty_iff]
    exact hne)]
  dsimp only
  rw [e7, e8]
  cases hml : l.map spaceToUscore with
  | nil => exact absurd hml hmapne
  | cons a t =>
      dsimp only
      rw [hml] at hmaphead
      simp only [List.headD_cons] at hmaphead
      rw [if_neg (not_not_intro hmaphead)]
      rw [if_neg (by
        have hlt : (a :: t).length = l.length := by
          rw [← hml, List.length_map]
        omega)]
      rw [hml] at hlow2
      rw [hlow2]

/-- Witness for the agreement theorem at the concrete plain label
`nom du projet`. -/
theorem normalizers_agree_on_plain_labels_witness :
    pyNormalizeColumnNameRep asciiUni 40 "nom du projet".toList
      = some (pyNormalizeColumnName asciiUni 50 "nom du projet".toList) ∧
    pyNormalizeColumnName asciiUni 50 "nom du projet".toList
      = "nom du projet".toList.map spaceToUscore := by
  exact normalizers_agree_on_plain_labels "nom du projet".toList (by decide) (by decide)
    (by decide) (by decide)
    (fun c hc => by
      rw [show "nom du projet".toList.getLast? = some 't' from rfl] at hc
      injection hc with h
      subst h
      decide)
    (by decide)

theorem chunksAux_flatten {α : Type} (n : Nat) (hn : 0 < n) :
    ∀ (fuel : Nat) (l : List α), l.length ≤ fuel → (chunksAux n fuel l).flatten = l := by
  intro fuel
  induction fuel with
  | zero =>
      intro l hl
      rw [Nat.le_zero, List.length_eq_zero] at hl
      subst hl
      rfl
  | succ f ih =>
      intro l hl
      cases l with
      | nil => rfl
      | cons a t =>
          show (List.take n (a :: t) :: chunksAux n f (List.drop n (a :: t))).flatten = a :: t
          rw [List.flatten_cons, ih (List.drop n (a :: t)) (by
            rw [List.length_drop]
            simp only [List.length_cons] at hl ⊢
            omega)]
          exact List.take_append_drop n (a :: t)

theorem chunks_flatten {α : Type} (n : Nat) (hn : 0 < n) (l : List α) :
    (chunks n l).flatten = l :=
  chunksAux_flatten n hn l.length l (Nat.le_refl _)

theorem processUpdateBatchesAux_retry {α : Type} (iOk : α → Bool) (bOk : Nat → Bool) :
    ∀ (cs : List (List α)) (idx i : Nat) (c : List α),
      cs.get? i = some c → bOk (idx + i) = false →
      ∀ r ∈ c, WCall.updOne r ∈ (processUpdateBatchesAux iOk bOk idx cs).2.2 := by
  intro cs
  induction cs with
  | nil =>
      intro idx i c hc
      simp at hc
  | cons c0 cs ih =>
      intro idx i c hc hb r hr
      cases i with
      | zero =>
          simp at hc
          subst hc
          rw [Nat.add_zero] at hb
          unfold processUpdateBatchesAux
          rw [if_neg (by simp [hb])]
          exact List.mem_cons_of_mem _
            (List.mem_append_left _ (List.mem_map_of_mem WCall.updOne hr))
      | succ j =>
          have hrec := ih (idx + 1) j c (by simpa using hc)
            (by
              have harith : idx + 1 + j = idx + (j + 1) := by omega
              rw [harith]
              exact hb) r hr
          unfold processUpdateBatchesAux
          split
          · exact List.mem_cons_of_mem _ hrec
          · exact List.mem_cons_of_mem _ (List.mem_append_right _ hrec)

theorem processCreateBatchesAux_trace {α : Type} (bOk : Nat → Bool) :
    ∀ (cs : List (List α)) (idx : Nat),
      (processCreateBatchesAux bOk idx cs).2.2 = cs.map WCall.createBatch := by
  intro cs
  induction cs with
  | nil => intro idx; rfl
  | cons c0 cs ih =>
      intro idx
      unfold processCreateBatchesAux
      split <;>
        · dsimp only
          rw [List.map_cons, ih (idx + 1)]

theorem processCreateBatchesAux_errors {α : Type} (bOk : Nat → Bool) :
    ∀ (cs : List (List α)) (idx : Nat),
      (processCreateBatchesAux bOk idx cs).2.1 = sumFailedLens bOk idx cs := by
  intro cs
  induction cs with
  | nil => intro idx; rfl
  | cons c0 cs ih =>
      intro idx
      unfold processCreateBatchesAux sumFailedLens
      split <;>
        · dsimp only
          simpa using ih (idx + 1)

/-- C7: in the batched write step, a batch-level failure of an update call
is followed by one individual retry call for every record of that batch
(and every update record lies in one of the batches), while the create loop
issues exactly one batched call per batch — never an individual call — and
a batch-level create failure contributes exactly the lengths of the failed
batches to the error count.  The same asymmetry holds for the single-batch
upsert of the case/champ/annotation writer. -/
theorem batch_write_retry_asymmetry {α : Type} (bs : Nat) (hbs : 0 < bs)
    (updates creates : List α) (ubOk : Nat → Bool) (uiOk : α → Bool) (cbOk : Nat → Bool)
    (gOk gcOk : Bool) (gupdates gcreates : List α) :
    (∀ i c, (chunks bs updates).get? i = some c → ubOk i = false →
      ∀ r ∈ c, WCall.updOne r
        ∈ (processRepetablesWrites bs updates creates ubOk uiOk cbOk).2.2) ∧
    (∀ r ∈ updates, ∃ c, c ∈ chunks bs updates ∧ r ∈ c) ∧
    ((processCreateBatchesAux cbOk 0 (chunks bs creates)).2.2
      = (chunks bs creates).map WCall.createBatch) ∧
    ((processCreateBatchesAux cbOk 0 (chunks bs creates)).2.1
      = sumFailedLens cbOk 0 (chunks bs creates)) ∧
    (gOk = false → ∀ r ∈ gupdates,
      WCall.updOne r ∈ (upsertUpdatePhase gOk uiOk gupdates).2.2) ∧
    (∀ call ∈ (upsertCreatePhase gcOk gcreates).2.2, call = WCall.createBatch gcreates) ∧
    (gcOk = false → gcreates ≠ [] →
      (upsertCreatePhase gcOk gcreates).2.1 = gcreates.length) := by
  refine ⟨?_, ?_, processCreateBatchesAux_trace cbOk _ 0,
    processCreateBatchesAux_errors cbOk _ 0, ?_, ?_, ?_⟩
  · intro i c hc hb r hr
    have h := processUpdateBatchesAux_retry uiOk ubOk (chunks bs updates) 0 i c hc
      (by simpa using hb) r hr
    exact List.mem_append_left _ h
  · intro r hr
    have hj : r ∈ (chunks bs updates).flatten := by
      rw [chunks_flatten bs hbs updates]
      exact hr
    rw [List.mem_flatten] at hj
    exact hj
  · intro hg r hr
    unfold upsertUpdatePhase
    rw [if_neg (by
      intro h0
      rw [List.isEmpty_iff] at h0
      subst h0
      simp at hr)]
    rw [if_neg (by simp [hg])]
    exact List.mem_cons_of_mem _ (List.mem_map_of_mem WCall.updOne hr)
  · intro call hcall
    unfold upsertCreatePhase at hcall
    split at hcall
    · simp at hcall
    · split at hcall <;> simpa using hcall
  · intro hg hne
    unfold upsertCreatePhase
    rw [if_neg (by
      intro h0
      rw [List.isEmpty_iff] at h0
      exact hne h0)]
    rw [if_neg (by simp [hg])]

/-- Witness for the retry-asymmetry theorem: with batch size 2, update
records `[1,2,3]`, a failing batched update call and a failing batched
create call, record 2 of the first update batch is retried individually,
the create trace is exactly the two batched calls, and the create errors
count the whole failed batch. -/
theorem batch_write_retry_asymmetry_witness :
    WCall.updOne 2 ∈ (processRepetablesWrites 2 [1, 2, 3] ([7, 8, 9] : List Nat)
      (fun _ => false) (fun _ => true) (fun _ => false)).2.2 ∧
    (processCreateBatchesAux (fun _ => false) 0 (chunks 2 ([7, 8, 9] : List Nat))).2.1
      = sumFailedLens (fun _ => false) 0 (chunks 2 ([7, 8, 9] : List Nat)) ∧
    (upsertCreatePhase false ([7, 8, 9] : List Nat)).2.1 = 3 := by
  have h := batch_write_retry_asymmetry 2 (by decide) [1, 2, 3] ([7, 8, 9] : List Nat)
    (fun _ => false) (fun _ => true) (fun _ => false) false false
    ([] : List Nat) ([7, 8, 9] : List Nat)
  exact ⟨h.1 0 [1, 2] (by decide) rfl 2 (by decide), h.2.2.2.1,
    h.2.2.2.2.2.2 rfl (by decide)⟩

/-- C8 amended: the orchestrator's run-level result is success if and only
if at least one case-table write succeeded for a record with a truthy
dossier number **or** the schema-based column discovery succeeded; in
particular partial per-case failures never turn an otherwise-writing run
into a failure, but a run with zero successful case writes is still
reported as a success whenever the schema method succeeded. -/
theorem run_result_success_iff (schemaOk : Bool) (batches : List (List Int × Bool)) :
    processDemarcheResult schemaOk batches = true ↔
      (∃ b ∈ batches, b.2 = true ∧ ∃ n ∈ b.1, n ≠ 0) ∨ schemaOk = true := by
  unfold processDemarcheResult runSets
  simp only [Bool.or_eq_true, decide_eq_true_eq]
  rw [batchFold_fst_pos]
  simp

/-- Writing a key reads back the written value. -/
theorem recGet_recSet_self (r : List (String × J)) (k : String) (v : J) :
    recGet (recSet r k v) k = some v := by
  induction r with
  | nil =>
      show recGet [(k, v)] k = some v
      unfold recGet
      rw [List.find?_cons_of_pos _ (by simp)]
      rfl
  | cons kv tl ih =>
      show recGet (if kv.1 = k then (k, v) :: tl else kv :: recSet tl k v) k = some v
      by_cases hk : kv.1 = k
      · rw [if_pos hk]
        unfold recGet
        rw [List.find?_cons_of_pos _ (by simp)]
        rfl
      · rw [if_neg hk]
        unfold recGet at ih ⊢
        rw [List.find?_cons_of_neg _ (by simpa using hk)]
        exact ih

/-- Writing a key leaves every other key's value unchanged. -/
theorem recGet_recSet_ne (r : List (String × J)) (k : String) (v : J)
    (key : String) (h : key ≠ k) :
    recGet (recSet r k v) key = recGet r key := by
  induction r with
  | nil =>
      show recGet [(k, v)] key = recGet [] key
      unfold recGet
      rw [List.find?_cons_of_neg _ (by simpa using fun he => h he.symm)]
  | cons kv tl ih =>
      show recGet (if kv.1 = k then (k, v) :: tl else kv :: recSet tl k v) key
        = recGet (kv :: tl) key
      by_cases hk : kv.1 = k
      · rw [if_pos hk]
        unfold recGet
        rw [List.find?_cons_of_neg _ (by simpa using fun he => h he.symm),
          List.find?_cons_of_neg _ (by simpa using fun he => h (hk ▸ he.symm))]
      · rw [if_neg hk]
        by_cases hkey : kv.1 = key
        · unfold recGet
          rw [List.find?_cons_of_pos _ (by simpa using hkey),
            List.find?_cons_of_pos _ (by simpa using hkey)]
        · unfold recGet at ih ⊢
          rw [List.find?_cons_of_neg _ (by simpa using hkey),
            List.find?_cons_of_neg _ (by simpa using hkey)]
          exact ih

/-- Writing a key adds no key other than the written one. -/
theorem recKeys_recSet_mem (r : List (String × J)) (k : String) (v : J)
    (key : String) (h : key ∈ recKeys (recSet r k v)) :
    key ∈ recKeys r ∨ key = k := by
  induction r with
  | nil =>
      right
      have h2 : key ∈ recKeys [(k, v)] := h
      simpa [recKeys] using h2
  | cons kv tl ih =>
      have h2 : key ∈ recKeys (if kv.1 = k then (k, v) :: tl else kv :: recSet tl k v) := h
      by_cases hk : kv.1 = k
      · rw [if_pos hk] at h2
        simp only [recKeys, List.map_cons, List.mem_cons] at h2 ⊢
        rcases h2 with rfl | h2
        · exact Or.inr rfl
        · exact Or.inl (Or.inr h2)
      · rw [if_neg hk] at h2
        simp only [recKeys, List.map_cons, List.mem_cons] at h2 ⊢
        rcases h2 with rfl | h2
        · exact Or.inl (Or.inl rfl)
        · rcases ih h2 with h3 | h3
          · exact Or.inl (Or.inr h3)
          · exact Or.inr h3

/-- Applying the geo attributes of a geo record leaves every key outside
that record untouched. -/
theorem recGet_applyGeoFields_not_mem (ct : List (String × String)) (key : String) :
    ∀ gd : List (String × J), key ∉ recKeys gd →
      ∀ r : Rec, recGet (applyGeoFields ct r gd) key = recGet r key := by
  intro gd
  induction gd with
  | nil => intro _ r; rfl
  | cons kv tl ih =>
      intro hkey r
      have h1 : key ∉ recKeys tl := by
        intro hm
        exact hkey (by simp only [recKeys, List.map_cons, List.mem_cons]; right; exact hm)
      have h2 : key ≠ kv.1 := by
        intro he
        exact hkey (by simp only [recKeys, List.map_cons, List.mem_cons]; left; exact he)
      show recGet (applyGeoFields ct
        (recSet r kv.1 (formatValueForGrist kv.2 (colTypeFor ct kv.1))) tl) key = recGet r key
      rw [ih h1, recGet_recSet_ne _ _ _ _ h2]

/-- A member of a successful fallible map is the image of a member. -/
theorem mapOption_mem {α β : Type} (f : α → Option β) :
    ∀ (l : List α) (ys : List β), mapOption f l = some ys →
      ∀ y ∈ ys, ∃ x ∈ l, f x = some y := by
  intro l
  induction l with
  | nil =>
      intro ys h y hy
      unfold mapOption at h
      injection h with h
      subst h
      simp at hy
  | cons a t ih =>
      intro ys h y hy
      unfold mapOption at h
      split at h
      · exact Option.noConfusion h
      · rename_i b hb
        split at h
        · exact Option.noConfusion h
        · rename_i bs hbs
          injection h with h
          subst h
          rcases List.mem_cons.mp hy with rfl | hy2
          · exact ⟨a, List.mem_cons_self a t, hb⟩
          · obtain ⟨x, hx, hfx⟩ := ih bs hbs y hy2
            exact ⟨x, List.mem_cons_of_mem a hx, hfx⟩

/-- The second component of an enumerated member is a member. -/
theorem mem_of_mem_enumFrom {α : Type} :
    ∀ (l : List α) (n : Nat) (p : Nat × α), p ∈ List.enumFrom n l → p.2 ∈ l := by
  intro l
  induction l with
  | nil => intro n p hp; simp [List.enumFrom] at hp
  | cons a t ih =>
      intro n p hp
      have hp2 : p ∈ (n, a) :: List.enumFrom (n + 1) t := hp
      rcases List.mem_cons.mp hp2 with rfl | hp3
      · exact List.mem_cons_self a t
      · exact List.mem_cons_of_mem a (ih (n + 1) p hp3)

/-- Keys of the fixed attribute projection of a geo area. -/
theorem mem_geo_of_base {key : String} {v1 v2 v3 v4 v5 v6 v7 v8 : J}
    (hk : key ∈ recKeys [("geo_id", v1), ("geo_source", v2), ("geo_description", v3),
      ("geo_commune", v4), ("geo_numero", v5), ("geo_section", v6),
      ("geo_prefixe", v7), ("geo_surface", v8)]) : key ∈ geoFieldKeys := by
  simp only [recKeys, List.map_cons, List.map_nil, List.mem_cons,
    List.not_mem_nil, or_false] at hk
  rcases hk with rfl | rfl | rfl | rfl | rfl | rfl | rfl | rfl <;> decide

/-- Every key of a record produced by `extract_geo_data` is a geo key. -/
theorem extractGeoData_keys (a : J) (gd : Rec) (h : extractGeoData a = some gd) :
    ∀ key ∈ recKeys gd, key ∈ geoFieldKeys := by
  have step : ∀ (r : Rec) (k : String) (v : J),
      (∀ key ∈ recKeys r, key ∈ geoFieldKeys) → k ∈ geoFieldKeys →
      ∀ key ∈ recKeys (recSet r k v), key ∈ geoFieldKeys := by
    intro r k v hr hkk key hkey
    rcases recKeys_recSet_mem r k v key hkey with h2 | rfl
    · exact hr key h2
    · exact hkk
  cases a with
  | obj l =>
      unfold extractGeoData at h
      dsimp only at h
      split at h
      · exact Option.noConfusion h
      · split_ifs at h <;>
          · injection h with h
            subst h
            first
            | exact step _ _ _ (step _ _ _ (step _ _ _
                (fun key hk => mem_geo_of_base hk) (by decide)) (by decide)) (by decide)
            | exact step _ _ _ (step _ _ _
                (fun key hk => mem_geo_of_base hk) (by decide)) (by decide)
            | exact step _ _ _ (fun key hk => mem_geo_of_base hk) (by decide)
  | null => simp [extractGeoData] at h
  | b v => simp [extractGeoData] at h
  | i v => simp [extractGeoData] at h
  | s v => simp [extractGeoData] at h
  | arr v => simp [extractGeoData] at h

/-- One field-loop iteration only appends geo records all of whose keys are
geo keys. -/
theorem collectFieldStep_geo (ct : List (String × String)) (pids : List String)
    (st st2 : Rec × List Rec) (field : J)
    (h : collectFieldStep ct pids st field = some st2) :
    ∀ gd ∈ st2.2, gd ∈ st.2 ∨ ∀ key ∈ recKeys gd, key ∈ geoFieldKeys := by
  unfold collectFieldStep at h
  split at h
  · injection h with h; subst h; exact fun gd hgd => Or.inl hgd
  · split at h
    · exact Option.noConfusion h
    · split at h
      · exact Option.noConfusion h
      · rename_i normalized
        split at h
        · injection h with h; subst h; exact fun gd hgd => Or.inl hgd
        · split at h
          · exact Option.noConfusion h
          · split at h
            · injection h with h; subst h; exact fun gd hgd => Or.inl hgd
            · dsimp only at h
              split at h
              · split at h
                · split at h
                  · exact Option.noConfusion h
                  · rename_i gds hgds
                    injection h with h
                    subst h
                    intro gd hgd
                    rcases List.mem_append.mp hgd with hgd2 | hgd2
                    · exact Or.inl hgd2
                    · right
                      obtain ⟨a, ha, hfa⟩ := mapOption_mem _ _ _ hgds gd hgd2
                      cases hea : extractGeoData a with
                      | none => rw [hea] at hfa; exact Option.noConfusion hfa
                      | some gd0 =>
                          rw [hea] at hfa
                          simp at hfa
                          subst hfa
                          intro key hkey
                          rcases recKeys_recSet_mem gd0 "field_name" _ key hkey with h2 | rfl
                          · exact extractGeoData_keys a gd0 hea key h2
                          · decide
                · exact Option.noConfusion h
              · injection h with h; subst h; exact fun gd hgd => Or.inl hgd

/-- The whole field loop starting from a geo-key-clean state keeps every geo
record's keys inside the geo keys. -/
theorem collectRowFields_geo_aux (ct : List (String × String)) (pids : List String) :
    ∀ (fields : List J) (st out : Rec × List Rec),
      foldlOpt (collectFieldStep ct pids) st fields = some out →
      (∀ gd ∈ st.2, ∀ key ∈ recKeys gd, key ∈ geoFieldKeys) →
      ∀ gd ∈ out.2, ∀ key ∈ recKeys gd, key ∈ geoFieldKeys := by
  intro fields
  induction fields with
  | nil =>
      intro st out h hst
      unfold foldlOpt at h
      injection h with h
      subst h
      exact hst
  | cons f t ih =>
      intro st out h hst
      unfold foldlOpt at h
      split at h
      · exact Option.noConfusion h
      · rename_i st2 hstep
        refine ih st2 out h ?_
        intro gd hgd key hkey
        rcases collectFieldStep_geo ct pids st st2 f hstep gd hgd with hmem | hgeo
        · exact hst gd hmem key hkey
        · exact hgeo key hkey

/-- Every geo record collected from a row's fields has only geo keys. -/
theorem collectRowFields_geo (ct : List (String × String)) (pids : List String)
    (fields : List J) (rowData : Rec) (geoList : List Rec)
    (h : collectRowFields ct pids fields = some (rowData, geoList)) :
    ∀ gd ∈ geoList, ∀ key ∈ recKeys gd, key ∈ geoFieldKeys :=
  collectRowFields_geo_aux ct pids fields (([] : List (String × J)), ([] : List Rec))
    (rowData, geoList) h (by intro gd hgd; simp at hgd)

/-- C1: flattening one repeatable-group row whose field loop yields the
field data `rowData` and the geo records `geoList` produces exactly
`max 1 geoList.length` records: with `N ≥ 1` geo areas, exactly `N` records
whose `block_row_id` values are `<row_id>_geo1` … `<row_id>_geoN` (1-based)
and which agree with the single base-plus-field-data record on every key
that is neither a geo attribute key nor `block_row_id` (same non-geo field
values and dossier/block/row-index base data); with zero geo areas, exactly
the one base-plus-field-data record. -/
theorem repeatable_row_geo_fanout
    (ct : List (String × String)) (pids : List String) (dn : Int) (bl : String)
    (ri : Nat) (row : J) (fields : List J) (rowData : Rec) (geoList : List Rec)
    (hch : jget row "champs" = some (J.arr fields))
    (hcol : collectRowFields ct pids fields = some (rowData, geoList)) :
    ∃ recs : List Rec,
      processRepRow ct pids dn bl ri row = some recs ∧
      recs.length = max 1 geoList.length ∧
      (geoList = [] →
        recs = [recUpdate (baseRecordOf dn bl ri (rowIdValue row ri)) rowData]) ∧
      (∀ k : Nat, ∀ hk : k < recs.length, k < geoList.length →
        recGet (recs.get ⟨k, hk⟩) "block_row_id" =
          some (J.s (pyStr (rowIdValue row ri) ++ "_geo" ++ toString (k + 1)))) ∧
      (∀ r ∈ recs, ∀ key : String, key ∉ geoFieldKeys → key ≠ "block_row_id" →
        recGet r key =
          recGet (recUpdate (baseRecordOf dn bl ri (rowIdValue row ri)) rowData) key) := by
  have hgeo : ∀ gd ∈ geoList, ∀ key ∈ recKeys gd, key ∈ geoFieldKeys :=
    collectRowFields_geo ct pids fields rowData geoList hcol
  cases geoList with
  | nil =>
      refine ⟨[recUpdate (baseRecordOf dn bl ri (rowIdValue row ri)) rowData],
        ?_, by simp, fun _ => rfl, ?_, ?_⟩
      · unfold processRepRow
        rw [hch]
        dsimp only
        rw [hcol]
        rfl
      · intro k hk hk2
        exact absurd hk2 (by simp)
      · intro r hr key _ _
        have : r = recUpdate (baseRecordOf dn bl ri (rowIdValue row ri)) rowData := by
          simpa using hr
        rw [this]
  | cons g gs =>
      refine ⟨(g :: gs).enum.map (fun p =>
          applyGeoFields ct
            (recSet (recUpdate (baseRecordOf dn bl ri (rowIdValue row ri)) rowData)
              "block_row_id"
              (J.s (pyStr (rowIdValue row ri) ++ "_geo" ++ toString (p.1 + 1)))) p.2),
        ?_, ?_, ?_, ?_, ?_⟩
      · unfold processRepRow
        rw [hch]
        dsimp only
        rw [hcol]
        rfl
      · simp only [List.length_map, List.enum_length, List.length_cons]
        omega
      · intro hcon
        exact absurd hcon (by simp)
      · intro k hk hk2
        have hget : ((g :: gs).enum.map (fun p =>
            applyGeoFields ct
              (recSet (recUpdate (baseRecordOf dn bl ri (rowIdValue row ri)) rowData)
                "block_row_id"
                (J.s (pyStr (rowIdValue row ri) ++ "_geo" ++ toString (p.1 + 1)))) p.2)).get
              ⟨k, hk⟩ =
            applyGeoFields ct
              (recSet (recUpdate (baseRecordOf dn bl ri (rowIdValue row ri)) rowData)
                "block_row_id"
                (J.s (pyStr (rowIdValue row ri) ++ "_geo" ++ toString (k + 1))))
              ((g :: gs).get ⟨k, hk2⟩) := by
          simp [List.get_eq_getElem, List.getElem_map, List.getElem_enum]
        rw [hget]
        have hnm : "block_row_id" ∉ recKeys ((g :: gs).get ⟨k, hk2⟩) := by
          intro hm
          have := hgeo _ (List.get_mem (g :: gs) k hk2) "block_row_id" hm
          exact absurd this (by decide)
        rw [recGet_applyGeoFields_not_mem ct "block_row_id" _ hnm, recGet_recSet_self]
      · intro r hr key hknotgeo hkne
        obtain ⟨p, hp, rfl⟩ := List.mem_map.mp hr
        have hp2 : p.2 ∈ g :: gs := mem_of_mem_enumFrom (g :: gs) 0 p hp
        have hnm : key ∉ recKeys p.2 := fun hm => hknotgeo (hgeo p.2 hp2 key hm)
        rw [recGet_applyGeoFields_not_mem ct key p.2 hnm,
          recGet_recSet_ne _ _ _ _ hkne]

/-- C1 witness: the example row with one text field and one map field
carrying three geo areas flattens into exactly three records. -/
theorem repeatable_row_geo_fanout_witness :
    jget exRow "champs" = some (J.arr exRowFields) ∧
    ∃ recs : List Rec,
      processRepRow exColumnTypes [] 101 "Parcelles" 0 exRow = some recs ∧
      recs.length = 3 := by
  refine ⟨rfl, ?_⟩
  have hlen : (collectRowFields exColumnTypes [] exRowFields).map
      (fun p => p.2.length) = some 3 := rfl
  cases hc : collectRowFields exColumnTypes [] exRowFields with
  | none => rw [hc] at hlen; exact Option.noConfusion hlen
  | some pr =>
      rw [hc] at hlen
      have hlen2 : pr.2.length = 3 := by simpa using hlen
      obtain ⟨recs, h1, h2, -, -, -⟩ :=
        repeatable_row_geo_fanout exColumnTypes [] 101 "Parcelles" 0 exRow exRowFields
          pr.1 pr.2 rfl (by rw [hc])
      exact ⟨recs, h1, by rw [h2, hlen2]; omega⟩

end DGER
